import Mathlib

/-!
# Caustic curve demo (`caustic_curve.cpp`): the geometry computed by `display()`

`display()` reads four `int` globals `a`, `b`, `p`, `q` (initialised from the
constants `A = 1`, `B = 1`, `P = 37`, `Q = 200`), fills a heap buffer `xy` of
`2 * q` floats with the curve points and then issues immediate-mode OpenGL
calls: one point per index, one boundary segment `i -> (i + 1) % q` per index
and one chord `i -> (i + p) % q` per index.

The embedding below takes the four globals as parameters.

* C++ `int` values are `Int`s; the result of an `int` operation that can leave
  the 32-bit range goes through `wrapInt` (two's complement wrap-around), and
  `%` is the truncating remainder `cmod`.
* `float` values live in an arbitrary type `F` with the operations the code
  uses collected in `FloatOps F`; whatever is assumed about rounding is an
  explicit hypothesis of the theorem that needs it.
* The heap buffer is a list of cells, `none` standing for a float that has been
  allocated but not written; every load and store is bounds-checked and reports
  a `Fault` instead of touching memory outside the buffer.
-/

namespace Caustic

/-! ## Machine integers -/

/-- Largest `int`. -/
def INT_MAX : Int := 2147483647

/-- Smallest `int`. -/
def INT_MIN : Int := -2147483648

/-- Value stored in an `int` when the exact result of the operation is `n`
(32-bit two's complement wrap-around; the identity on `INT_MIN .. INT_MAX`). -/
def wrapInt (n : Int) : Int := (n + 2147483648) % 4294967296 - 2147483648

/-- C++ `x % y` on `int`: the remainder of the division that truncates toward
zero, so the result has the sign of `x`. -/
def cmod (x y : Int) : Int := Int.tmod x y

/-! ## Counted loops -/

/-- Values produced by the iterations `i, i + 1, ..., q - 1` of
`for (int i = ...; i < q; ++i) body(i)`, in order.  (`++i` never leaves the
`int` range here: it is only executed when `i < q`.) -/
def forLoop {α : Type} (q : Int) (body : Int → α) (i : Int) : List α :=
  if i < q then body i :: forLoop q body (i + 1) else []
termination_by (q - i).toNat
decreasing_by omega

/-! ## Edge index pairs -/

/-- Body of the boundary loop: `int j = (i + 1) % q;` and the segment drawn is
from point `i` to point `j`. -/
def boundaryEdge (q i : Int) : Int × Int := (i, cmod (wrapInt (i + 1)) q)

/-- Body of the chord loop: `int j = (i + p) % q;` and the segment drawn is
from point `i` to point `j`. -/
def chordEdge (q p i : Int) : Int × Int := (i, cmod (wrapInt (i + p)) q)

/-- Index pairs of the boundary polyline loop of `display()`. -/
def boundaryEdges (q : Int) : List (Int × Int) := forLoop q (boundaryEdge q) 0

/-- Index pairs of the caustic chord loop of `display()`. -/
def chordEdges (q p : Int) : List (Int × Int) := forLoop q (chordEdge q p) 0

/-! ## Floats -/

/-- The `float` constants and operations `display()` uses.  `ofInt` is the
conversion `(float)n` (also the implicit one in `a * theta`), `cos` and `sin`
are the `float` overloads of `std::cos` and `std::sin`. -/
structure FloatOps (F : Type) where
  /-- the literal `0.0f` -/
  zero : F
  /-- the literal `1.0f` -/
  one : F
  /-- the literal `3.14159265358979323846f` -/
  pi : F
  ofInt : Int → F
  mul : F → F → F
  div : F → F → F
  cos : F → F
  sin : F → F

/-! ## The heap buffer -/

/-- Ways in which a run of `display()` can leave defined behaviour. -/
inductive Fault where
  /-- `new float[n]` with `n < 0` throws `std::bad_array_new_length` -/
  | badArrayNewLength
  /-- access to `xy[off]` with `off` outside the allocated array -/
  | outOfBounds (off : Int)
  /-- read of `xy[off]` before anything was stored there -/
  | uninitialised (off : Int)
deriving DecidableEq

/-- Allocation `new float[n]`: `n` floats, none of them initialised; a negative
length is refused (exhaustion of memory is not modelled). -/
def newFloatArray (F : Type) (n : Int) : Except Fault (List (Option F)) :=
  if n < 0 then .error .badArrayNewLength else .ok (List.replicate n.toNat none)

/-- Assignment `xy[off] = v`. -/
def store {F : Type} (xy : List (Option F)) (off : Int) (v : F) :
    Except Fault (List (Option F)) :=
  if 0 ≤ off ∧ off < xy.length then .ok (xy.set off.toNat (some v))
  else .error (.outOfBounds off)

/-- Read of `xy[off]`. -/
def load {F : Type} (xy : List (Option F)) (off : Int) : Except Fault F :=
  if 0 ≤ off ∧ off < xy.length then
    match xy.getD off.toNat none with
    | some v => .ok v
    | none => .error (.uninitialised off)
  else .error (.outOfBounds off)

/-- What `glVertex2fv(xy + off)` reads: the two floats `xy[off]`, `xy[off + 1]`. -/
def readVertex {F : Type} (xy : List (Option F)) (off : Int) : Except Fault (F × F) :=
  match load xy off with
  | .error e => .error e
  | .ok x =>
    match load xy (off + 1) with
    | .error e => .error e
    | .ok y => .ok (x, y)

/-! ## Loops with state -/

/-- Iterations `i, i + 1, ..., q - 1` of `for (int i = ...; i < q; ++i)` whose
body transforms a state and may fault; a fault ends the run. -/
def forLoopM {σ : Type} (q : Int) (body : Int → σ → Except Fault σ) (i : Int) (s : σ) :
    Except Fault σ :=
  if i < q then
    match body i s with
    | .ok s' => forLoopM q body (i + 1) s'
    | .error e => .error e
  else .ok s
termination_by (q - i).toNat
decreasing_by omega

/-! ## Point generation -/

/-- State of the fill loop: the running offset `k`, the buffer, and (for
bookkeeping only) the offsets stored to so far, in order. -/
structure FillState (F : Type) where
  k : Int
  xy : List (Option F)
  stores : List Int

/-- `float theta = (float)(i * 2) * pi / (float)q;` -/
def theta {F : Type} (ops : FloatOps F) (q i : Int) : F :=
  ops.div (ops.mul (ops.ofInt (wrapInt (i * 2))) ops.pi) (ops.ofInt q)

/-- Body of the fill loop, with `r = 1.0f`:
`xy[k] = r * std::cos(a * theta); xy[k+1] = r * std::sin(b * theta); k += 2;` -/
def fillBody {F : Type} (ops : FloatOps F) (a b q : Int) (i : Int) (s : FillState F) :
    Except Fault (FillState F) :=
  match store s.xy s.k (ops.mul ops.one (ops.cos (ops.mul (ops.ofInt a) (theta ops q i)))) with
  | .error e => .error e
  | .ok xy₁ =>
    match store xy₁ (wrapInt (s.k + 1))
        (ops.mul ops.one (ops.sin (ops.mul (ops.ofInt b) (theta ops q i)))) with
    | .error e => .error e
    | .ok xy₂ =>
      .ok { k := wrapInt (s.k + 2), xy := xy₂, stores := s.stores ++ [s.k, wrapInt (s.k + 1)] }

/-- The fill loop run up to (not including) iteration `n`, from `k = 0` on the
buffer `xy`; `n = q` is the whole loop. -/
def fillLoop {F : Type} (ops : FloatOps F) (a b q : Int) (n : Int) (xy : List (Option F)) :
    Except Fault (FillState F) :=
  forLoopM n (fillBody ops a b q) 0 { k := 0, xy := xy, stores := [] }

/-- Lines 50-57 of `display()`: `float* xy = new float[2 * q]; int k = 0;` and
the fill loop. -/
def fillPoints {F : Type} (ops : FloatOps F) (a b q : Int) : Except Fault (FillState F) :=
  match newFloatArray F (wrapInt (2 * q)) with
  | .error e => .error e
  | .ok xy => fillLoop ops a b q q xy

/-- The vertices handed to OpenGL by the points loop: for each `i`, the pair
read by `glVertex2fv(xy + i * 2)`. -/
def readPoints {F : Type} (xy : List (Option F)) (q : Int) : Except Fault (List (F × F)) :=
  forLoopM q (fun i acc =>
    match readVertex xy (wrapInt (i * 2)) with
    | .error e => .error e
    | .ok v => .ok (acc ++ [v])) 0 []

/-- The generated curve: the buffer is allocated and filled, then read back
point by point as the points loop does. -/
def curvePoints {F : Type} (ops : FloatOps F) (a b q : Int) : Except Fault (List (F × F)) :=
  match fillPoints ops a b q with
  | .error e => .error e
  | .ok s => readPoints s.xy q

/-! ## The OpenGL calls of `display()` -/

/-- Primitive kinds passed to `glBegin`. -/
inductive Prim where
  | GL_POINTS
  | GL_LINES
deriving DecidableEq

/-- One OpenGL call; `glVertex2fv` is recorded with the two floats it read. -/
inductive GLCall (F : Type) where
  | glClear
  | glColor3f (r g b : F)
  | glBegin (mode : Prim)
  | glVertex2fv (x y : F)
  | glEnd
  | glFlush
deriving DecidableEq

/-- The calls `glBegin(GL_POINTS); glVertex2fv(..); glEnd();` when the vertex
read is `v`. -/
def pointCalls {F : Type} (v : F × F) : List (GLCall F) :=
  [.glBegin .GL_POINTS, .glVertex2fv v.1 v.2, .glEnd]

/-- The calls `glBegin(GL_LINES); glVertex2fv(..); glVertex2fv(..); glEnd();`
when the vertices read are `v` and `w`. -/
def lineCalls {F : Type} (v w : F × F) : List (GLCall F) :=
  [.glBegin .GL_LINES, .glVertex2fv v.1 v.2, .glVertex2fv w.1 w.2, .glEnd]

/-- `glBegin(GL_POINTS); glVertex2fv(xy + i * 2); glEnd();` -/
def drawPoint {F : Type} (xy : List (Option F)) (i : Int) (calls : List (GLCall F)) :
    Except Fault (List (GLCall F)) :=
  match readVertex xy (wrapInt (i * 2)) with
  | .error e => .error e
  | .ok v => .ok (calls ++ pointCalls v)

/-- `glBegin(GL_LINES); glVertex2fv(xy + i * 2); glVertex2fv(xy + j * 2); glEnd();`
for the index pair `e = (i, j)`. -/
def drawLine {F : Type} (xy : List (Option F)) (e : Int × Int) (calls : List (GLCall F)) :
    Except Fault (List (GLCall F)) :=
  match readVertex xy (wrapInt (e.1 * 2)) with
  | .error err => .error err
  | .ok v =>
    match readVertex xy (wrapInt (e.2 * 2)) with
    | .error err => .error err
    | .ok w => .ok (calls ++ lineCalls v w)

/-- The three drawing loops of `display()` on a filled buffer, between
`glClear` and `glFlush`. -/
def drawAll {F : Type} (ops : FloatOps F) (p q : Int) (xy : List (Option F)) :
    Except Fault (List (GLCall F)) :=
  match forLoopM q (drawPoint xy) 0 [.glClear, .glColor3f ops.zero ops.zero ops.one] with
  | .error e => .error e
  | .ok c₁ =>
    match forLoopM q (fun i => drawLine xy (boundaryEdge q i)) 0
        (c₁ ++ [.glColor3f ops.zero ops.one ops.zero]) with
    | .error e => .error e
    | .ok c₂ =>
      match forLoopM q (fun i => drawLine xy (chordEdge q p i)) 0
          (c₂ ++ [.glColor3f ops.one ops.zero ops.zero]) with
      | .error e => .error e
      | .ok c₃ => .ok (c₃ ++ [.glFlush])

/-- The function `display()`: the OpenGL calls it makes, or the fault that
stops it. -/
def display {F : Type} (ops : FloatOps F) (a b p q : Int) : Except Fault (List (GLCall F)) :=
  match fillPoints ops a b q with
  | .error e => .error e
  | .ok s => drawAll ops p q s.xy

/-! ## Following edges -/

/-- Index reached from `i` along the first edge of the list that starts at
`i`; `none` when no edge starts there. -/
def follow (edges : List (Int × Int)) (i : Int) : Option Int :=
  (edges.find? (fun e => e.1 == i)).map Prod.snd

/-- Index reached from `i` after following edges `n` times; `none` as soon
as a step has no edge to follow. -/
def walk (edges : List (Int × Int)) : Nat → Int → Option Int
  | 0, i => some i
  | n + 1, i => (walk edges n i).bind (follow edges)

/-! ## Closed forms used in the statements -/

/-- The curve point of index `i` as the specification writes it, in `float`
operations: `angle = (i * 2) * pi / q`, `x = cos(a * angle)`,
`y = sin(b * angle)`. -/
def specPoint {F : Type} (ops : FloatOps F) (a b q : Int) (i : Int) : F × F :=
  (ops.cos (ops.mul (ops.ofInt a) (ops.div (ops.mul (ops.ofInt (i * 2)) ops.pi) (ops.ofInt q))),
   ops.sin (ops.mul (ops.ofInt b) (ops.div (ops.mul (ops.ofInt (i * 2)) ops.pi) (ops.ofInt q))))

/-- Buffer cells holding the points `pt 0, ..., pt (n - 1)`, two floats each. -/
def pointCells {F : Type} (pt : Nat → F × F) : Nat → List (Option F)
  | 0 => []
  | n + 1 => pointCells pt n ++ [some (pt n).1, some (pt n).2]

/-- The two floats the fill loop stores for index `i`: `r * x` and `r * y`
with `r = 1.0f` and `(x, y)` the point of the specification. -/
def storedPoint {F : Type} (ops : FloatOps F) (a b q : Int) (i : Nat) : F × F :=
  (ops.mul ops.one (specPoint ops a b q i).1, ops.mul ops.one (specPoint ops a b q i).2)

/-- State of the fill loop when `n` iterations are done: `k = 2 * n`, the
first `n` points stored and the rest of the `2 * q` cells untouched, the
offsets `0, ..., 2 * n - 1` stored to once each, in order. -/
def fillState {F : Type} (ops : FloatOps F) (a b q : Int) (n : Nat) : FillState F :=
  { k := 2 * (n : Int)
    xy := pointCells (storedPoint ops a b q) n ++ List.replicate (2 * (q.toNat - n)) none
    stores := (List.range (2 * n)).map (fun (t : Nat) => (t : Int)) }

/-- Exact facts of IEEE 754 arithmetic and of `cos`, `sin` at zero (C Annex F)
that the statements about point 0 and about `r = 1.0f` rest on. -/
structure ExactLaws {F : Type} (ops : FloatOps F) : Prop where
  ofInt_zero : ops.ofInt 0 = ops.zero
  ofInt_one : ops.ofInt 1 = ops.one
  zero_mul_pi : ops.mul ops.zero ops.pi = ops.zero
  zero_div : ∀ n : Int, 1 ≤ n → ops.div ops.zero (ops.ofInt n) = ops.zero
  one_mul : ∀ x : F, ops.mul ops.one x = x
  cos_zero : ops.cos ops.zero = ops.one
  sin_zero : ops.sin ops.zero = ops.zero

/-- Standard model of `float` (binary32) arithmetic over the reals: `fin x`
says the float `x` is finite and `val x` is then the real number it stands
for.  Integers of magnitude at most `2^24` convert exactly, the literal `pi`
is the float nearest to its decimal text, a product or quotient that is far
from overflow is the exact one up to a relative error `2^-24` (rounding) and
an absolute error `10^-30` (gradual underflow), and `cos`, `sin` of a moderate
argument are within `10^-6` of the true values. -/
structure FloatModel {F : Type} (ops : FloatOps F) (val : F → ℝ) (fin : F → Prop) : Prop where
  one_val : fin ops.one ∧ val ops.one = 1
  pi_val : fin ops.pi ∧ val ops.pi = 13176795 / 4194304
  ofInt_val : ∀ n : Int, |n| ≤ 16777216 → fin (ops.ofInt n) ∧ val (ops.ofInt n) = (n : ℝ)
  mul_val : ∀ x y : F, fin x → fin y → |val x * val y| ≤ 10 ^ 30 →
    fin (ops.mul x y)
    ∧ |val (ops.mul x y) - val x * val y| ≤ 1 / 16777216 * |val x * val y| + 1 / 10 ^ 30
  div_val : ∀ x y : F, fin x → fin y → val y ≠ 0 → |val x / val y| ≤ 10 ^ 30 →
    fin (ops.div x y)
    ∧ |val (ops.div x y) - val x / val y| ≤ 1 / 16777216 * |val x / val y| + 1 / 10 ^ 30
  cos_val : ∀ x : F, fin x → |val x| ≤ 16 →
    fin (ops.cos x) ∧ |val (ops.cos x) - Real.cos (val x)| ≤ 1 / 10 ^ 6
  sin_val : ∀ x : F, fin x → |val x| ≤ 16 →
    fin (ops.sin x) ∧ |val (ops.sin x) - Real.sin (val x)| ≤ 1 / 10 ^ 6

/-! ## Basic facts -/

theorem wrapInt_of_range {n : Int} (h₁ : INT_MIN ≤ n) (h₂ : n ≤ INT_MAX) : wrapInt n = n := by
  unfold INT_MIN at h₁
  unfold INT_MAX at h₂
  unfold wrapInt
  omega

theorem forLoop_step {α : Type} (q : Int) (body : Int → α) (i : Int) (h : i < q) :
    forLoop q body i = body i :: forLoop q body (i + 1) := by
  rw [forLoop, if_pos h]

theorem forLoop_done {α : Type} (q : Int) (body : Int → α) (i : Int) (h : q ≤ i) :
    forLoop q body i = [] := by
  rw [forLoop, if_neg (by omega)]

/-- The loop from `i` runs `q - i` times, on `i, i + 1, ...`. -/
theorem forLoop_eq_map_aux {α : Type} (q : Int) (body : Int → α) :
    ∀ (n : Nat) (i : Int), (q - i).toNat = n →
      forLoop q body i = (List.range n).map (fun (t : Nat) => body (i + (t : Int)))
  | 0, i, h => by
      rw [forLoop_done q body i (by omega)]
      rfl
  | n + 1, i, h => by
      rw [forLoop_step q body i (by omega), forLoop_eq_map_aux q body n (i + 1) (by omega),
        List.range_succ_eq_map, List.map_cons, List.map_map]
      simp only [Nat.cast_zero, add_zero, List.cons.injEq, true_and]
      apply List.map_congr_left
      intro t _
      simp only [Function.comp_apply, Nat.cast_succ]
      congr 1
      omega

theorem forLoop_eq_map {α : Type} (q : Int) (body : Int → α) :
    forLoop q body 0 = (List.range q.toNat).map (fun (t : Nat) => body (t : Int)) := by
  rw [forLoop_eq_map_aux q body q.toNat 0 (by omega)]
  simp

/-! ## The edge loops -/

theorem cmod_eq_emod {x y : Int} (hx : 0 ≤ x) (hy : 0 ≤ y) : cmod x y = x % y :=
  Int.tmod_eq_emod hx hy

theorem boundaryEdge_eq (q t : Int) (ht : 0 ≤ t) (htq : t < q) (hmax : q ≤ INT_MAX) :
    boundaryEdge q t = (t, (t + 1) % q) := by
  have hw : wrapInt (t + 1) = t + 1 :=
    wrapInt_of_range (by unfold INT_MIN; omega) (by omega)
  simp only [boundaryEdge, hw]
  rw [cmod_eq_emod (by omega) (by omega)]

theorem chordEdge_eq (q p t : Int) (ht : 0 ≤ t) (hq : 0 ≤ q) (hp : 0 ≤ p)
    (hmax : t + p ≤ INT_MAX) : chordEdge q p t = (t, (t + p) % q) := by
  have hw : wrapInt (t + p) = t + p :=
    wrapInt_of_range (by unfold INT_MIN; omega) hmax
  simp only [chordEdge, hw]
  rw [cmod_eq_emod (by omega) hq]

theorem boundaryEdges_eq (q : Int) (hmax : q ≤ INT_MAX) :
    boundaryEdges q
      = (List.range q.toNat).map (fun (i : Nat) => ((i : Int), ((i : Int) + 1) % q)) := by
  unfold boundaryEdges
  rw [forLoop_eq_map]
  apply List.map_congr_left
  intro t ht
  have := List.mem_range.mp ht
  exact boundaryEdge_eq q t (by omega) (by omega) hmax

theorem chordEdges_eq (q p : Int) (hp : 0 ≤ p) (hmax : q - 1 + p ≤ INT_MAX) :
    chordEdges q p
      = (List.range q.toNat).map (fun (i : Nat) => ((i : Int), ((i : Int) + p) % q)) := by
  unfold chordEdges
  rw [forLoop_eq_map]
  apply List.map_congr_left
  intro t ht
  have := List.mem_range.mp ht
  exact chordEdge_eq q p t (by omega) (by omega) hp (by omega)

/-- C1: for a point count `1 ≤ q` (an `int`), the boundary loop yields exactly
`q` index pairs, the `i`-th being `(i, (i + 1) mod q)`, and both indices of
every pair lie in `[0, q)`. -/
theorem boundaryEdges_spec (q : Int) (hq : 1 ≤ q) (hmax : q ≤ INT_MAX) :
    (boundaryEdges q).length = q.toNat
    ∧ (∀ i : Nat, i < q.toNat →
        (boundaryEdges q)[i]? = some ((i : Int), ((i : Int) + 1) % q))
    ∧ ∀ e ∈ boundaryEdges q, 0 ≤ e.1 ∧ e.1 < q ∧ 0 ≤ e.2 ∧ e.2 < q := by
  rw [boundaryEdges_eq q hmax]
  refine ⟨by simp, ?_, ?_⟩
  · intro i hi
    simp [List.getElem?_map, List.getElem?_range hi]
  · intro e he
    obtain ⟨i, hi, rfl⟩ := List.mem_map.mp he
    have := List.mem_range.mp hi
    refine ⟨by omega, by omega, Int.emod_nonneg _ (by omega), Int.emod_lt_of_pos _ (by omega)⟩

theorem boundaryEdges_spec_witness :
    (boundaryEdges 3).length = 3
    ∧ (boundaryEdges 3)[2]? = some (2, 0)
    ∧ ∀ e ∈ boundaryEdges 3, 0 ≤ e.1 ∧ e.1 < 3 ∧ 0 ≤ e.2 ∧ e.2 < 3 :=
  have h := boundaryEdges_spec 3 (by decide) (by decide)
  ⟨h.1, h.2.1 2 (by decide), h.2.2⟩

/-- C2, as stated, fails: `q = 3` and `p = INT_MAX` are a point count `≥ 1`
and a stride `≥ 0`, the sum `i + p` leaves the `int` range from `i = 1` on,
and the loop yields `(1, -2)` and `(2, -1)` where `(i, (i + p) mod q)` is
`(1, 2)` and `(2, 0)`. -/
theorem chordEdges_overflow_counterexample :
    ((1 : Int) ≤ 3 ∧ (0 : Int) ≤ 2147483647 ∧ (2147483647 : Int) ≤ INT_MAX
      ∧ INT_MAX < (1 : Int) + 2147483647)
    ∧ chordEdges 3 2147483647 = [(0, 1), (1, -2), (2, -1)]
    ∧ ¬ (∀ i : Nat, i < 3 →
          (chordEdges 3 2147483647)[i]? = some ((i : Int), ((i : Int) + 2147483647) % 3)) := by
  have h : chordEdges 3 2147483647 = [(0, 1), (1, -2), (2, -1)] := by
    rw [chordEdges, forLoop_eq_map]
    decide
  refine ⟨by decide, h, ?_⟩
  intro hall
  have h1 := hall 1 (by decide)
  rw [h] at h1
  revert h1
  decide

/-- C2 (amended): for a point count `1 ≤ q` and a stride `0 ≤ p` with
`q - 1 + p ≤ INT_MAX` (no `i + p` overflows), the chord loop yields exactly `q`
index pairs and the `i`-th is `(i, (i + p) mod q)`; for the shipped `q = 200`,
`p = 37`, pair 0 is `(0, 37)` and pair 163 is `(163, 0)`. -/
theorem chordEdges_spec (q p : Int) (hq : 1 ≤ q) (hp : 0 ≤ p) (hmax : q - 1 + p ≤ INT_MAX) :
    ((chordEdges q p).length = q.toNat
      ∧ ∀ i : Nat, i < q.toNat →
          (chordEdges q p)[i]? = some ((i : Int), ((i : Int) + p) % q))
    ∧ (chordEdges 200 37).length = 200
    ∧ (chordEdges 200 37)[0]? = some (0, 37)
    ∧ (chordEdges 200 37)[163]? = some (163, 0) := by
  have hq1 : 1 ≤ q := hq
  have gen : ∀ q p : Int, 0 ≤ p → q - 1 + p ≤ INT_MAX →
      (chordEdges q p).length = q.toNat
      ∧ ∀ i : Nat, i < q.toNat →
          (chordEdges q p)[i]? = some ((i : Int), ((i : Int) + p) % q) := by
    intro q p hp hmax
    rw [chordEdges_eq q p hp hmax]
    refine ⟨by simp, ?_⟩
    intro i hi
    simp [List.getElem?_map, List.getElem?_range hi]
  have h200 := gen 200 37 (by decide) (by decide)
  refine ⟨gen q p hp hmax, h200.1, ?_, ?_⟩
  · exact h200.2 0 (by decide)
  · exact h200.2 163 (by decide)

theorem chordEdges_spec_witness :
    ((1 : Int) ≤ 5 ∧ (0 : Int) ≤ 7 ∧ (5 : Int) - 1 + 7 ≤ INT_MAX)
    ∧ (chordEdges 5 7).length = 5
    ∧ (chordEdges 5 7)[4]? = some (4, 1) :=
  have h := chordEdges_spec 5 7 (by decide) (by decide) (by decide)
  ⟨by decide, h.1.1, h.1.2 4 (by decide)⟩

/-- C4, as stated, fails: a negative stride is not normalised; with `q = 3`
and stride `-1` the first chord is `(0, -1)`. -/
theorem chordEdges_negative_counterexample :
    chordEdges 3 (-1) = [(0, -1), (1, 0), (2, 1)]
    ∧ ¬ (∀ e ∈ chordEdges 3 (-1), 0 ≤ e.2 ∧ e.2 < 3) := by
  have h : chordEdges 3 (-1) = [(0, -1), (1, 0), (2, 1)] := by
    rw [chordEdges, forLoop_eq_map]
    decide
  rw [h]
  exact ⟨rfl, by decide⟩

/-- C4 (amended): for a point count `1 ≤ q` and any stride, every chord
`(i, j)` whose sum `i + stride` lies in `[0, INT_MAX]` has
`j = (i + stride) mod q`, hence `0 ≤ j < q`; in particular every chord has
`0 ≤ j < q` when `0 ≤ stride` and `q - 1 + stride ≤ INT_MAX`. -/
theorem chordEdges_range (q p : Int) (hq : 1 ≤ q) :
    (∀ e ∈ chordEdges q p, 0 ≤ e.1 + p → e.1 + p ≤ INT_MAX →
        e.2 = (e.1 + p) % q ∧ 0 ≤ e.2 ∧ e.2 < q)
    ∧ (0 ≤ p → q - 1 + p ≤ INT_MAX → ∀ e ∈ chordEdges q p, 0 ≤ e.2 ∧ e.2 < q) := by
  have key : ∀ e ∈ chordEdges q p, 0 ≤ e.1 + p → e.1 + p ≤ INT_MAX →
      e.2 = (e.1 + p) % q ∧ 0 ≤ e.2 ∧ e.2 < q := by
    intro e he h0 h1
    rw [chordEdges, forLoop_eq_map] at he
    obtain ⟨t, _, rfl⟩ := List.mem_map.mp he
    have hw : wrapInt ((t : Int) + p) = (t : Int) + p :=
      wrapInt_of_range (by unfold INT_MIN; exact le_trans (by decide) h0) h1
    have hj : (chordEdge q p t).2 = ((t : Int) + p) % q := by
      simp only [chordEdge, hw]
      exact cmod_eq_emod h0 (by omega)
    rw [hj]
    exact ⟨rfl, Int.emod_nonneg _ (by omega), Int.emod_lt_of_pos _ (by omega)⟩
  refine ⟨key, ?_⟩
  intro hp hmax e he
  have hi : 0 ≤ e.1 ∧ e.1 < q := by
    rw [chordEdges, forLoop_eq_map] at he
    obtain ⟨t, ht, rfl⟩ := List.mem_map.mp he
    have := List.mem_range.mp ht
    exact ⟨by simp [chordEdge], by simp only [chordEdge]; omega⟩
  exact (key e he (by omega) (by omega)).2

theorem chordEdges_range_witness :
    (1 : Int) ≤ 3
    ∧ (∀ e ∈ chordEdges 3 (-1), 0 ≤ e.1 + -1 → e.1 + -1 ≤ INT_MAX →
        e.2 = (e.1 + -1) % 3 ∧ 0 ≤ e.2 ∧ e.2 < 3)
    ∧ ((0 : Int) ≤ 37 ∧ (200 : Int) - 1 + 37 ≤ INT_MAX
        ∧ ∀ e ∈ chordEdges 200 37, 0 ≤ e.2 ∧ e.2 < 200) :=
  ⟨by decide, (chordEdges_range 3 (-1) (by decide)).1,
    by decide, by decide,
    (chordEdges_range 200 37 (by decide)).2 (by decide) (by decide)⟩

/-! ## Following edges: cycles -/

theorem find_map_range (f : Nat → Int) :
    ∀ (n i : Nat), i < n →
      ((List.range n).map (fun (t : Nat) => ((t : Int), f t))).find?
          (fun e => e.1 == (i : Int)) = some ((i : Int), f i)
  | 0, i, h => absurd h (Nat.not_lt_zero i)
  | n + 1, i, h => by
      rw [List.range_succ, List.map_append, List.find?_append]
      by_cases hin : i < n
      · rw [find_map_range f n i hin]
        rfl
      · have hi : i = n := by omega
        subst hi
        have hnone : ((List.range i).map (fun (t : Nat) => ((t : Int), f t))).find?
            (fun e => e.1 == (i : Int)) = none := by
          rw [List.find?_eq_none]
          intro e he
          obtain ⟨t, ht, rfl⟩ := List.mem_map.mp he
          have := List.mem_range.mp ht
          simp only [beq_iff_eq, Nat.cast_inj]
          omega
        rw [hnone]
        simp

theorem follow_map_range (f : Nat → Int) (n : Nat) (i : Int) (h0 : 0 ≤ i) (hi : i < n) :
    follow ((List.range n).map (fun (t : Nat) => ((t : Int), f t))) i = some (f i.toNat) := by
  have h := find_map_range f n i.toNat (by omega)
  rw [Int.toNat_of_nonneg h0] at h
  rw [follow, h]
  rfl

theorem follow_boundaryEdges (q i : Int) (hmax : q ≤ INT_MAX) (h0 : 0 ≤ i) (hi : i < q) :
    follow (boundaryEdges q) i = some ((i + 1) % q) := by
  rw [boundaryEdges_eq q hmax,
    follow_map_range (fun t => ((t : Int) + 1) % q) q.toNat i h0 (by omega)]
  simp only [Int.toNat_of_nonneg h0]

theorem follow_chordEdges (q p i : Int) (hp : 0 ≤ p) (hmax : q - 1 + p ≤ INT_MAX)
    (h0 : 0 ≤ i) (hi : i < q) :
    follow (chordEdges q p) i = some ((i + p) % q) := by
  rw [chordEdges_eq q p hp hmax,
    follow_map_range (fun t => ((t : Int) + p) % q) q.toNat i h0 (by omega)]
  simp only [Int.toNat_of_nonneg h0]

theorem walk_boundaryEdges (q : Int) (hmax : q ≤ INT_MAX) :
    ∀ n : Nat, (n : Int) < q → walk (boundaryEdges q) n 0 = some (n : Int)
  | 0, _ => rfl
  | n + 1, h => by
      have hn : (n : Int) < q := by omega
      rw [walk, walk_boundaryEdges q hmax n hn, Option.some_bind,
        follow_boundaryEdges q n hmax (by omega) hn, Int.emod_eq_of_lt (by omega) (by omega)]
      simp

theorem walk_chordEdges (q p : Int) (hq : 1 ≤ q) (hp : 0 ≤ p) (hmax : q - 1 + p ≤ INT_MAX) :
    ∀ n : Nat, walk (chordEdges q p) n 0 = some (((n : Int) * p) % q)
  | 0 => by simp [walk]
  | n + 1 => by
      rw [walk, walk_chordEdges q p hq hp hmax n, Option.some_bind,
        follow_chordEdges q p _ hp hmax (Int.emod_nonneg _ (by omega))
          (Int.emod_lt_of_pos _ (by omega)),
        Int.emod_add_emod]
      congr 2
      push_cast
      ring

/-- An injective map of `{0, ..., N - 1}` into itself reaches every element. -/
theorem exists_of_injOn_range (N : Nat) (f : Nat → Int)
    (hr : ∀ n < N, 0 ≤ f n ∧ f n < N)
    (hinj : ∀ m < N, ∀ n < N, f m = f n → m = n) :
    ∀ j : Int, 0 ≤ j → j < N → ∃ n < N, f n = j := by
  intro j hj0 hjN
  have key := Finset.surj_on_of_inj_on_of_card_le
    (s := Finset.range N) (t := Finset.range N)
    (fun a _ => (f a).toNat)
    (fun a ha => by
      have := hr a (Finset.mem_range.mp ha)
      show (f a).toNat ∈ Finset.range N
      exact Finset.mem_range.mpr (by omega))
    (fun a₁ a₂ h₁ h₂ h => by
      have r₁ := hr a₁ (Finset.mem_range.mp h₁)
      have r₂ := hr a₂ (Finset.mem_range.mp h₂)
      have h' : (f a₁).toNat = (f a₂).toNat := h
      exact hinj a₁ (Finset.mem_range.mp h₁) a₂ (Finset.mem_range.mp h₂) (by omega))
    (le_refl _) j.toNat (Finset.mem_range.mpr (by omega))
  obtain ⟨a, ha, hja⟩ := key
  have r := hr a (Finset.mem_range.mp ha)
  have hja' : j.toNat = (f a).toNat := hja
  exact ⟨a, Finset.mem_range.mp ha, by omega⟩

/-- With `gcd(p, q) = 1`, equal multiples of `p` modulo `q` come from equal
factors below `q`. -/
theorem mul_emod_injOn (q p : Int) (hg : Int.gcd p q = 1) (m n : Int)
    (hm0 : 0 ≤ m) (hm : m < q) (hn0 : 0 ≤ n) (hn : n < q)
    (h : (m * p) % q = (n * p) % q) : m = n := by
  have h1 : q ∣ (m - n) * p := by
    have := Int.emod_eq_emod_iff_emod_sub_eq_zero.mp h
    rw [sub_mul]
    exact Int.dvd_of_emod_eq_zero this
  have h2 : q ∣ m - n := Int.dvd_of_dvd_mul_left_of_gcd_one h1 (by rw [Int.gcd_comm]; exact hg)
  have h3 : m - n = 0 := Int.eq_zero_of_abs_lt_dvd h2 (by rw [abs_lt]; constructor <;> omega)
  omega

/-- With the same stride added, equal indices modulo `q` come from equal
indices below `q`. -/
theorem add_emod_injOn (q p : Int) (m n : Int)
    (hm0 : 0 ≤ m) (hm : m < q) (hn0 : 0 ≤ n) (hn : n < q)
    (h : (m + p) % q = (n + p) % q) : m = n := by
  have h1 : q ∣ m - n := by
    have := Int.emod_eq_emod_iff_emod_sub_eq_zero.mp h
    have e : m + p - (n + p) = m - n := by ring
    rw [e] at this
    exact Int.dvd_of_emod_eq_zero this
  have h3 : m - n = 0 := Int.eq_zero_of_abs_lt_dvd h1 (by rw [abs_lt]; constructor <;> omega)
  omega

/-- C6: for a point count `1 ≤ q`, following the boundary edges from index 0
reaches `n` after `n` steps for every `n < q` (so the indices `1, ..., q - 1`
in order, pairwise distinct), every index in `[0, q)` is reached by exactly
one number of steps below `q`, and step `q` is back at 0. -/
theorem boundaryEdges_single_cycle (q : Int) (hq : 1 ≤ q) (hmax : q ≤ INT_MAX) :
    (∀ n : Nat, (n : Int) < q → walk (boundaryEdges q) n 0 = some (n : Int))
    ∧ (∀ m n : Nat, (m : Int) < q → (n : Int) < q →
        walk (boundaryEdges q) m 0 = walk (boundaryEdges q) n 0 → m = n)
    ∧ (∀ j : Int, 0 ≤ j → j < q →
        ∃! n : Nat, (n : Int) < q ∧ walk (boundaryEdges q) n 0 = some j)
    ∧ walk (boundaryEdges q) q.toNat 0 = some 0 := by
  have hw := walk_boundaryEdges q hmax
  refine ⟨hw, ?_, ?_, ?_⟩
  · intro m n hm hn h
    rw [hw m hm, hw n hn] at h
    exact Int.ofNat_inj.mp (Option.some.inj h)
  · intro j hj0 hjq
    refine ⟨j.toNat, ⟨by omega, ?_⟩, ?_⟩
    · rw [hw j.toNat (by omega), Int.toNat_of_nonneg hj0]
    · rintro n ⟨hn, hwn⟩
      rw [hw n hn] at hwn
      have := Option.some.inj hwn
      omega
  · obtain ⟨m, hm⟩ : ∃ m : Nat, q.toNat = m + 1 := ⟨q.toNat - 1, by omega⟩
    have hmq : (m : Int) < q := by omega
    rw [hm, walk, hw m hmq, Option.some_bind, follow_boundaryEdges q m hmax (by omega) hmq]
    have e : (m : Int) + 1 = q := by omega
    rw [e, Int.emod_self]

theorem boundaryEdges_single_cycle_witness :
    ((1 : Int) ≤ 4 ∧ (4 : Int) ≤ INT_MAX)
    ∧ walk (boundaryEdges 4) 3 0 = some 3
    ∧ walk (boundaryEdges 4) 4 0 = some 0 :=
  have h := boundaryEdges_single_cycle 4 (by decide) (by decide)
  ⟨by decide, h.1 3 (by decide), h.2.2.2⟩

/-- C10, as stated, fails: `gcd(INT_MAX, 3) = 1`, yet with `q = 3` and
`p = INT_MAX` the chords end at `1, -2, -1`: no chord ends at index 0 or 2,
and the walk from 0 leaves `[0, 3)` at its second step. -/
theorem chord_cycle_overflow_counterexample :
    Int.gcd 2147483647 3 = 1
    ∧ (chordEdges 3 2147483647).map Prod.snd = [1, -2, -1]
    ∧ ((chordEdges 3 2147483647).map Prod.snd).count 0 = 0
    ∧ walk (chordEdges 3 2147483647) 2 0 = some (-2)
    ∧ walk (chordEdges 3 2147483647) 3 0 = none := by
  have h : chordEdges 3 2147483647 = [(0, 1), (1, -2), (2, -1)] := by
    rw [chordEdges, forLoop_eq_map]
    decide
  rw [h]
  decide

/-- C10 (amended): for a point count `1 ≤ q` and a stride `0 ≤ p` with
`q - 1 + p ≤ INT_MAX` and `gcd(p, q) = 1`, the chord from `i` ends at
`(i + p) mod q`, every index of `[0, q)` starts exactly one chord and ends
exactly one chord (the chord ends are a permutation of `0, ..., q - 1`), and
the walk along chords from 0 reaches every index of `[0, q)` at exactly one
number of steps below `q`, is never back at 0 after `0 < n < q` steps and is
back at 0 after `q` steps. -/
theorem chordEdges_single_cycle (q p : Int) (hq : 1 ≤ q) (hp : 0 ≤ p)
    (hmax : q - 1 + p ≤ INT_MAX) (hg : Int.gcd p q = 1) :
    (∀ i : Int, 0 ≤ i → i < q → follow (chordEdges q p) i = some ((i + p) % q))
    ∧ (∀ j : Int, 0 ≤ j → j < q →
        ((chordEdges q p).map Prod.fst).count j = 1
        ∧ ((chordEdges q p).map Prod.snd).count j = 1)
    ∧ ((chordEdges q p).map Prod.snd).Perm
        ((List.range q.toNat).map (fun (i : Nat) => (i : Int)))
    ∧ (∀ j : Int, 0 ≤ j → j < q →
        ∃! n : Nat, (n : Int) < q ∧ walk (chordEdges q p) n 0 = some j)
    ∧ (∀ n : Nat, 0 < n → (n : Int) < q → walk (chordEdges q p) n 0 ≠ some 0)
    ∧ walk (chordEdges q p) q.toNat 0 = some 0 := by
  have hw := walk_chordEdges q p hq hp hmax
  have hfst : (chordEdges q p).map Prod.fst
      = (List.range q.toNat).map (fun (i : Nat) => (i : Int)) := by
    rw [chordEdges_eq q p hp hmax, List.map_map]
    rfl
  have hsnd : (chordEdges q p).map Prod.snd
      = (List.range q.toNat).map (fun (i : Nat) => ((i : Int) + p) % q) := by
    rw [chordEdges_eq q p hp hmax, List.map_map]
    rfl
  have nd₁ : ((List.range q.toNat).map (fun (i : Nat) => (i : Int))).Nodup :=
    List.Nodup.map_on (fun x _ y _ h => Int.ofNat_inj.mp h) (List.nodup_range _)
  have nd₂ : ((List.range q.toNat).map (fun (i : Nat) => ((i : Int) + p) % q)).Nodup := by
    apply List.Nodup.map_on _ (List.nodup_range _)
    intro x hx y hy h
    have := List.mem_range.mp hx
    have := List.mem_range.mp hy
    have := add_emod_injOn q p x y (by omega) (by omega) (by omega) (by omega) h
    omega
  have mem₁ : ∀ j : Int, 0 ≤ j → j < q →
      j ∈ (List.range q.toNat).map (fun (i : Nat) => (i : Int)) := by
    intro j hj0 hjq
    exact List.mem_map.mpr ⟨j.toNat, List.mem_range.mpr (by omega), by omega⟩
  have mem₂ : ∀ j : Int, 0 ≤ j → j < q →
      j ∈ (List.range q.toNat).map (fun (i : Nat) => ((i : Int) + p) % q) := by
    intro j hj0 hjq
    have h0 : 0 ≤ (j - p) % q := Int.emod_nonneg _ (by omega)
    have h1 : (j - p) % q < q := Int.emod_lt_of_pos _ (by omega)
    refine List.mem_map.mpr ⟨((j - p) % q).toNat, List.mem_range.mpr (by omega), ?_⟩
    rw [Int.toNat_of_nonneg h0, Int.emod_add_emod, sub_add_cancel]
    exact Int.emod_eq_of_lt hj0 hjq
  have inj : ∀ m : Nat, (m : Int) < q → ∀ n : Nat, (n : Int) < q →
      ((m : Int) * p) % q = ((n : Int) * p) % q → m = n := by
    intro m hm n hn h
    have := mul_emod_injOn q p hg m n (by omega) hm (by omega) hn h
    omega
  refine ⟨fun i h0 hi => follow_chordEdges q p i hp hmax h0 hi, ?_, ?_, ?_, ?_, ?_⟩
  · intro j hj0 hjq
    rw [hfst, hsnd]
    exact ⟨List.count_eq_one_of_mem nd₁ (mem₁ j hj0 hjq),
      List.count_eq_one_of_mem nd₂ (mem₂ j hj0 hjq)⟩
  · rw [hsnd]
    refine (List.perm_ext_iff_of_nodup nd₂ nd₁).mpr ?_
    intro j
    constructor
    · intro hj
      obtain ⟨i, _, rfl⟩ := List.mem_map.mp hj
      exact mem₁ _ (Int.emod_nonneg _ (by omega)) (Int.emod_lt_of_pos _ (by omega))
    · intro hj
      obtain ⟨i, hi, rfl⟩ := List.mem_map.mp hj
      have := List.mem_range.mp hi
      exact mem₂ _ (by omega) (by omega)
  · intro j hj0 hjq
    obtain ⟨n, hn, hfn⟩ := exists_of_injOn_range q.toNat (fun n => ((n : Int) * p) % q)
      (fun n _ => ⟨Int.emod_nonneg _ (by omega), by
        have := Int.emod_lt_of_pos ((n : Int) * p) (show 0 < q by omega)
        show ((n : Int) * p) % q < (q.toNat : Int)
        omega⟩)
      (fun m hm n hn h => inj m (by omega) n (by omega) h)
      j hj0 (by omega)
    refine ⟨n, ⟨by omega, by rw [hw n]; exact congrArg some hfn⟩, ?_⟩
    rintro m ⟨hm, hwm⟩
    rw [hw m] at hwm
    exact inj m hm n (by omega) ((Option.some.inj hwm).trans hfn.symm)
  · intro n hn0 hnq hwn
    rw [hw n] at hwn
    have h0 : ((n : Int) * p) % q = (((0 : Nat) : Int) * p) % q := by
      rw [Option.some.inj hwn]
      simp
    have := inj n hnq 0 (by omega) h0
    omega
  · rw [hw q.toNat, Int.toNat_of_nonneg (by omega), Int.mul_emod_right]

theorem chordEdges_single_cycle_witness :
    ((1 : Int) ≤ 200 ∧ (0 : Int) ≤ 37 ∧ (200 : Int) - 1 + 37 ≤ INT_MAX ∧ Int.gcd 37 200 = 1)
    ∧ follow (chordEdges 200 37) 163 = some 0
    ∧ walk (chordEdges 200 37) 200 0 = some 0 :=
  have h := chordEdges_single_cycle 200 37 (by decide) (by decide) (by decide) (by decide)
  ⟨by decide, h.1 163 (by decide) (by decide), h.2.2.2.2.2⟩

/-! ## Loops with state -/

theorem forLoopM_done {σ : Type} (q : Int) (body : Int → σ → Except Fault σ) (i : Int) (s : σ)
    (h : q ≤ i) : forLoopM q body i s = .ok s := by
  rw [forLoopM, if_neg (by omega)]

theorem forLoopM_step {σ : Type} (q : Int) (body : Int → σ → Except Fault σ) (i : Int)
    (s s' : σ) (h : i < q) (hb : body i s = .ok s') :
    forLoopM q body i s = forLoopM q body (i + 1) s' := by
  rw [forLoopM, if_pos h, hb]

/-- A loop whose body takes `st j` to `st (j + 1)` at every index ends in
`st q`. -/
theorem forLoopM_closed {σ : Type} (q : Int) (body : Int → σ → Except Fault σ) (st : Int → σ) :
    ∀ (n : Nat) (i : Int), (q - i).toNat = n → i ≤ q →
      (∀ j, i ≤ j → j < q → body j (st j) = .ok (st (j + 1))) →
      forLoopM q body i (st i) = .ok (st q)
  | 0, i, h, hle, _ => by
      have : i = q := by omega
      subst this
      exact forLoopM_done i body i (st i) le_rfl
  | n + 1, i, h, hle, hb => by
      rw [forLoopM_step q body i _ _ (by omega) (hb i le_rfl (by omega))]
      exact forLoopM_closed q body st n (i + 1) (by omega) (by omega)
        (fun j hj hjq => hb j (by omega) hjq)

/-! ## The buffer -/

theorem pointCells_length {F : Type} (pt : Nat → F × F) :
    ∀ n : Nat, (pointCells pt n).length = 2 * n
  | 0 => rfl
  | n + 1 => by
      rw [pointCells, List.length_append, pointCells_length pt n]
      simp only [List.length_cons, List.length_nil]
      omega

theorem pointCells_getElem {F : Type} (pt : Nat → F × F) :
    ∀ (n i : Nat), i < n →
      (pointCells pt n)[2 * i]? = some (some (pt i).1)
      ∧ (pointCells pt n)[2 * i + 1]? = some (some (pt i).2)
  | 0, i, h => absurd h (Nat.not_lt_zero i)
  | n + 1, i, h => by
      rw [pointCells]
      by_cases hin : i < n
      · have ih := pointCells_getElem pt n i hin
        have hl := pointCells_length pt n
        rw [List.getElem?_append_left (by omega), List.getElem?_append_left (by omega)]
        exact ih
      · have hi : i = n := by omega
        subst hi
        have hl := pointCells_length pt i
        rw [List.getElem?_append_right (by omega), List.getElem?_append_right (by omega)]
        have e₁ : 2 * i - (pointCells pt i).length = 0 := by omega
        have e₂ : 2 * i + 1 - (pointCells pt i).length = 1 := by omega
        rw [e₁, e₂]
        exact ⟨rfl, rfl⟩

theorem load_of_getElem {F : Type} (xy : List (Option F)) (off : Int) (n : Nat) (v : F)
    (hoff : off = (n : Int)) (h : xy[n]? = some (some v)) : load xy off = .ok v := by
  subst hoff
  have hlen : n < xy.length := by
    by_contra hc
    rw [List.getElem?_eq_none (by omega)] at h
    exact absurd h (by simp)
  unfold load
  rw [if_pos ⟨by omega, by omega⟩, List.getD_eq_getElem?_getD]
  simp only [Int.toNat_ofNat, h, Option.getD_some]

theorem readVertex_pointCells {F : Type} (pt : Nat → F × F) (n i : Nat) (h : i < n)
    (rest : List (Option F)) (off : Int) (hoff : off = 2 * (i : Int)) :
    readVertex (pointCells pt n ++ rest) off = .ok (pt i) := by
  have hg := pointCells_getElem pt n i h
  have hl := pointCells_length pt n
  have h₁ : load (pointCells pt n ++ rest) off = .ok (pt i).1 :=
    load_of_getElem _ off (2 * i) _ (by omega)
      (by rw [List.getElem?_append_left (by omega)]; exact hg.1)
  have h₂ : load (pointCells pt n ++ rest) (off + 1) = .ok (pt i).2 :=
    load_of_getElem _ (off + 1) (2 * i + 1) _ (by omega)
      (by rw [List.getElem?_append_left (by omega)]; exact hg.2)
  unfold readVertex
  rw [h₁, h₂]

theorem store_append_none {F : Type} (pre rest : List (Option F)) (off : Int) (v : F)
    (hoff : off = (pre.length : Int)) :
    store (pre ++ none :: rest) off v = .ok (pre ++ some v :: rest) := by
  subst hoff
  unfold store
  rw [if_pos ⟨by omega, by simp⟩, Int.toNat_ofNat, List.set_append_right _ _ le_rfl]
  simp

/-! ## The fill loop -/

theorem fillBody_of_stores {F : Type} (ops : FloatOps F) (a b q i : Int) (s : FillState F)
    (x y : F) (k k₁ k₂ : Int) (xy₀ xy₁ xy₂ : List (Option F)) (st : List Int)
    (hx : ops.mul ops.one (ops.cos (ops.mul (ops.ofInt a) (theta ops q i))) = x)
    (hy : ops.mul ops.one (ops.sin (ops.mul (ops.ofInt b) (theta ops q i))) = y)
    (hxy : s.xy = xy₀) (hst : s.stores = st)
    (hk : s.k = k) (hk₁ : wrapInt (k + 1) = k₁) (hk₂ : wrapInt (k + 2) = k₂)
    (h₁ : store xy₀ k x = .ok xy₁) (h₂ : store xy₁ k₁ y = .ok xy₂) :
    fillBody ops a b q i s = .ok { k := k₂, xy := xy₂, stores := st ++ [k, k₁] } := by
  unfold fillBody
  rw [hx, hy, hxy, hst, hk, hk₁, hk₂, h₁]
  simp only []
  rw [h₂]

theorem fillBody_fillState {F : Type} (ops : FloatOps F) (a b q : Int)
    (hmax : 2 * q ≤ INT_MAX) (n : Nat) (hn : (n : Int) < q) :
    fillBody ops a b q n (fillState ops a b q n) = .ok (fillState ops a b q (n + 1)) := by
  have hw : wrapInt ((n : Int) * 2) = (n : Int) * 2 :=
    wrapInt_of_range (by unfold INT_MIN; omega) (by omega)
  have hk1 : wrapInt (2 * (n : Int) + 1) = 2 * (n : Int) + 1 :=
    wrapInt_of_range (by unfold INT_MIN; omega) (by omega)
  have hk2 : wrapInt (2 * (n : Int) + 2) = 2 * ((n + 1 : Nat) : Int) :=
    (wrapInt_of_range (by unfold INT_MIN; omega) (by omega)).trans (by push_cast; ring)
  have hl := pointCells_length (storedPoint ops a b q) n
  have hx : ops.mul ops.one (ops.cos (ops.mul (ops.ofInt a) (theta ops q n)))
      = (storedPoint ops a b q n).1 := by
    simp only [storedPoint, specPoint, theta, hw]
  have hy : ops.mul ops.one (ops.sin (ops.mul (ops.ofInt b) (theta ops q n)))
      = (storedPoint ops a b q n).2 := by
    simp only [storedPoint, specPoint, theta, hw]
  have hxy : (fillState ops a b q n).xy
      = pointCells (storedPoint ops a b q) n
        ++ none :: none :: List.replicate (2 * (q.toNat - (n + 1))) none := by
    have e : 2 * (q.toNat - n) = 2 * (q.toNat - (n + 1)) + 1 + 1 := by omega
    show pointCells (storedPoint ops a b q) n ++ List.replicate (2 * (q.toNat - n)) none = _
    rw [e, List.replicate_succ, List.replicate_succ]
  have hk : (fillState ops a b q n).k = 2 * (n : Int) := rfl
  have hst : (fillState ops a b q n).stores
      = (List.range (2 * n)).map (fun (t : Nat) => (t : Int)) := rfl
  have h₁ := store_append_none (pointCells (storedPoint ops a b q) n)
    (none :: List.replicate (2 * (q.toNat - (n + 1))) none) (2 * (n : Int))
    (storedPoint ops a b q n).1 (by omega)
  have h₂ := store_append_none
    (pointCells (storedPoint ops a b q) n ++ [some (storedPoint ops a b q n).1])
    (List.replicate (2 * (q.toNat - (n + 1))) none) (2 * (n : Int) + 1)
    (storedPoint ops a b q n).2
    (by rw [List.length_append, hl]; simp only [List.length_cons, List.length_nil]; omega)
  rw [List.append_assoc, List.singleton_append] at h₂
  have hxy' : pointCells (storedPoint ops a b q) n ++ [some (storedPoint ops a b q n).1]
        ++ some (storedPoint ops a b q n).2 :: List.replicate (2 * (q.toNat - (n + 1))) none
      = pointCells (storedPoint ops a b q) (n + 1)
        ++ List.replicate (2 * (q.toNat - (n + 1))) none := by
    rw [pointCells, List.append_assoc, List.append_assoc]
    rfl
  have hst' : (List.range (2 * n)).map (fun (t : Nat) => (t : Int))
        ++ [2 * (n : Int), 2 * (n : Int) + 1]
      = (List.range (2 * (n + 1))).map (fun (t : Nat) => (t : Int)) := by
    rw [show 2 * (n + 1) = (2 * n + 1) + 1 by ring, List.range_succ, List.range_succ,
      List.map_append, List.map_append, List.append_assoc]
    simp
  rw [hxy'] at h₂
  rw [fillBody_of_stores ops a b q n (fillState ops a b q n) _ _ _ _ _ _ _ _ _
    hx hy hxy hst hk hk1 hk2 h₁ h₂, hst']
  rfl

theorem fillLoop_eq {F : Type} (ops : FloatOps F) (a b q : Int) (hmax : 2 * q ≤ INT_MAX)
    (n : Nat) (hn : (n : Int) ≤ q) :
    fillLoop ops a b q n (List.replicate (2 * q.toNat) none)
      = .ok (fillState ops a b q n) := by
  have h := forLoopM_closed (n : Int) (fillBody ops a b q)
    (fun j => fillState ops a b q j.toNat) n 0 (by omega) (by omega)
    (fun j hj0 hjn => by
      have e : (j + 1).toNat = j.toNat + 1 := by omega
      have hb := fillBody_fillState ops a b q hmax j.toNat (by omega)
      rw [Int.toNat_of_nonneg hj0] at hb
      simp only [e]
      exact hb)
  simp only [Int.toNat_ofNat] at h
  rw [← h]
  rfl

theorem fillPoints_eq {F : Type} (ops : FloatOps F) (a b q : Int) (hq : 0 ≤ q)
    (hmax : 2 * q ≤ INT_MAX) :
    fillPoints ops a b q = .ok (fillState ops a b q q.toNat) := by
  have hw : wrapInt (2 * q) = 2 * q :=
    wrapInt_of_range (by unfold INT_MIN; omega) hmax
  have hn : (2 * q).toNat = 2 * q.toNat := by omega
  have h := fillLoop_eq ops a b q hmax q.toNat (by omega)
  rw [Int.toNat_of_nonneg hq] at h
  unfold fillPoints newFloatArray
  rw [hw, if_neg (by omega), hn]
  exact h

theorem readVertex_fillState {F : Type} (ops : FloatOps F) (a b q : Int)
    (hmax : 2 * q ≤ INT_MAX) (j : Int) (hj0 : 0 ≤ j) (hjq : j < q) :
    readVertex (fillState ops a b q q.toNat).xy (wrapInt (j * 2))
      = .ok (storedPoint ops a b q j.toNat) := by
  rw [wrapInt_of_range (by unfold INT_MIN; omega) (by omega)]
  exact readVertex_pointCells (storedPoint ops a b q) q.toNat j.toNat (by omega) _ _ (by omega)

theorem readPoints_fillState {F : Type} (ops : FloatOps F) (a b q : Int) (hq : 0 ≤ q)
    (hmax : 2 * q ≤ INT_MAX) :
    readPoints (fillState ops a b q q.toNat).xy q
      = .ok ((List.range q.toNat).map (storedPoint ops a b q)) := by
  have h := forLoopM_closed q
    (fun i acc =>
      match readVertex (fillState ops a b q q.toNat).xy (wrapInt (i * 2)) with
      | .error e => .error e
      | .ok v => .ok (acc ++ [v]))
    (fun j => (List.range j.toNat).map (storedPoint ops a b q)) q.toNat 0 (by omega) hq
    (fun j hj0 hjq => by
      have e : (j + 1).toNat = j.toNat + 1 := by omega
      simp only [readVertex_fillState ops a b q hmax j hj0 hjq]
      rw [e, List.range_succ, List.map_append]
      rfl)
  exact h

theorem curvePoints_eq {F : Type} (ops : FloatOps F) (a b q : Int) (hq : 0 ≤ q)
    (hmax : 2 * q ≤ INT_MAX) :
    curvePoints ops a b q = .ok ((List.range q.toNat).map (storedPoint ops a b q)) := by
  unfold curvePoints
  rw [fillPoints_eq ops a b q hq hmax]
  exact readPoints_fillState ops a b q hq hmax

theorem storedPoint_eq_specPoint {F : Type} (ops : FloatOps F) (laws : ExactLaws ops)
    (a b q : Int) (i : Nat) : storedPoint ops a b q i = specPoint ops a b q i := by
  unfold storedPoint
  rw [laws.one_mul, laws.one_mul]

theorem specPoint_zero {F : Type} (ops : FloatOps F) (laws : ExactLaws ops) (q : Int)
    (hq : 1 ≤ q) : specPoint ops 1 1 q 0 = (ops.one, ops.zero) := by
  unfold specPoint
  rw [zero_mul, laws.ofInt_zero, laws.zero_mul_pi, laws.zero_div q hq, laws.ofInt_one,
    laws.one_mul, laws.cos_zero, laws.sin_zero]

theorem fillPoints_overflow {F : Type} (ops : FloatOps F) (a b q : Int)
    (h₁ : INT_MAX < 2 * q) (h₂ : q ≤ INT_MAX) :
    newFloatArray F (wrapInt (2 * q)) = .error .badArrayNewLength
    ∧ fillPoints ops a b q = .error .badArrayNewLength := by
  have hw : wrapInt (2 * q) < 0 := by
    unfold INT_MAX at h₁ h₂
    unfold wrapInt
    omega
  have hn : newFloatArray F (wrapInt (2 * q)) = .error .badArrayNewLength := by
    unfold newFloatArray
    rw [if_pos hw]
  refine ⟨hn, ?_⟩
  unfold fillPoints
  rw [hn]

/-- When `new float[2 * q]` returns, `2 * q` is an `int` and the buffer has
that many cells, none of them written. -/
theorem newFloatArray_ok {F : Type} (q : Int) (hq : 1 ≤ q) (hqmax : q ≤ INT_MAX)
    (xy : List (Option F)) (h : newFloatArray F (wrapInt (2 * q)) = .ok xy) :
    2 * q ≤ INT_MAX ∧ xy = List.replicate (2 * q.toNat) none := by
  by_cases hmax : 2 * q ≤ INT_MAX
  · have hw : wrapInt (2 * q) = 2 * q :=
      wrapInt_of_range (by unfold INT_MIN; omega) hmax
    have hn : (2 * q).toNat = 2 * q.toNat := by omega
    unfold newFloatArray at h
    rw [hw, if_neg (by omega), hn] at h
    simp only [Except.ok.injEq] at h
    exact ⟨hmax, h.symm⟩
  · have hw : wrapInt (2 * q) < 0 := by
      unfold INT_MAX at hmax hqmax
      unfold wrapInt
      omega
    unfold newFloatArray at h
    rw [if_pos hw] at h
    exact absurd h (by simp)

/-- C3: for an `int` point count `1 ≤ q` and any multipliers `a`, `b`, once
the buffer `new float[2 * q]` exists the fill loop completes and the curve it
generates has exactly `q` points, the `i`-th being
`(cos(a * theta), sin(b * theta))` with `theta = (i * 2) * pi / q` in `float`
operations (`r = 1.0f` multiplies exactly); with `a = b = 1` point 0 is
exactly `(1.0f, 0.0f)`. -/
theorem curvePoints_spec {F : Type} (ops : FloatOps F) (laws : ExactLaws ops) (a b q : Int)
    (hq : 1 ≤ q) (hqmax : q ≤ INT_MAX) :
    ∀ xy : List (Option F), newFloatArray F (wrapInt (2 * q)) = .ok xy →
      ∃ (s : FillState F) (pts : List (F × F)),
        fillLoop ops a b q q xy = .ok s ∧ readPoints s.xy q = .ok pts
        ∧ curvePoints ops a b q = .ok pts
        ∧ pts.length = q.toNat
        ∧ (∀ i : Nat, i < q.toNat → pts[i]? = some
            (ops.cos (ops.mul (ops.ofInt a)
                (ops.div (ops.mul (ops.ofInt ((i : Int) * 2)) ops.pi) (ops.ofInt q))),
             ops.sin (ops.mul (ops.ofInt b)
                (ops.div (ops.mul (ops.ofInt ((i : Int) * 2)) ops.pi) (ops.ofInt q)))))
        ∧ (a = 1 → b = 1 → pts[0]? = some (ops.one, ops.zero)) := by
  intro xy hxy
  obtain ⟨hmax, rfl⟩ := newFloatArray_ok q hq hqmax xy hxy
  have hfill := fillLoop_eq ops a b q hmax q.toNat (by omega)
  rw [Int.toNat_of_nonneg (by omega)] at hfill
  refine ⟨_, _, hfill, readPoints_fillState ops a b q (by omega) hmax,
    curvePoints_eq ops a b q (by omega) hmax, by simp, ?_, ?_⟩
  · intro i hi
    rw [List.getElem?_map, List.getElem?_range hi, Option.map_some',
      storedPoint_eq_specPoint ops laws]
    rfl
  · intro ha hb
    subst ha hb
    rw [List.getElem?_map, List.getElem?_range (by omega), Option.map_some',
      storedPoint_eq_specPoint ops laws]
    exact congrArg some (specPoint_zero ops laws q hq)

theorem curvePoints_spec_witness :
    ∃ ops : FloatOps ℝ, (ExactLaws ops ∧ (1 : Int) ≤ 4 ∧ (4 : Int) ≤ INT_MAX
        ∧ newFloatArray ℝ (wrapInt (2 * 4)) = .ok (List.replicate 8 none))
      ∧ ∃ pts : List (ℝ × ℝ), curvePoints ops 1 1 4 = .ok pts ∧ pts.length = 4
        ∧ pts[0]? = some (ops.one, ops.zero) := by
  let ops : FloatOps ℝ :=
    ⟨0, 1, 13176795 / 4194304, fun n => (n : ℝ), fun x y => x * y, fun x y => x / y,
      Real.cos, Real.sin⟩
  have laws : ExactLaws ops :=
    ⟨by simp [ops], by simp [ops], by simp [ops], fun n _ => by simp [ops],
      fun x => by simp [ops], by simp [ops], by simp [ops]⟩
  have ha : newFloatArray ℝ (wrapInt (2 * 4)) = .ok (List.replicate 8 none) := by
    rw [wrapInt_of_range (by decide) (by decide)]
    rfl
  obtain ⟨_, pts, _, _, h, hlen, _, h0⟩ :=
    curvePoints_spec ops laws 1 1 4 (by decide) (by decide) _ ha
  exact ⟨ops, ⟨laws, by decide, by decide, ha⟩, pts, h, hlen, h0 rfl rfl⟩

/-! ## The drawing loops -/

theorem drawPoint_of_read {F : Type} (xy : List (Option F)) (i : Int) (calls : List (GLCall F))
    (v : F × F) (h : readVertex xy (wrapInt (i * 2)) = .ok v) :
    drawPoint xy i calls = .ok (calls ++ pointCalls v) := by
  unfold drawPoint
  rw [h]

theorem drawLine_of_read {F : Type} (xy : List (Option F)) (e : Int × Int)
    (calls : List (GLCall F)) (v w : F × F)
    (hv : readVertex xy (wrapInt (e.1 * 2)) = .ok v)
    (hw : readVertex xy (wrapInt (e.2 * 2)) = .ok w) :
    drawLine xy e calls = .ok (calls ++ lineCalls v w) := by
  unfold drawLine
  rw [hv]
  simp only []
  rw [hw]

theorem drawAll_of_loops {F : Type} (ops : FloatOps F) (p q : Int) (xy : List (Option F))
    (c₁ c₂ c₃ : List (GLCall F))
    (h₁ : forLoopM q (drawPoint xy) 0 [.glClear, .glColor3f ops.zero ops.zero ops.one] = .ok c₁)
    (h₂ : forLoopM q (fun i => drawLine xy (boundaryEdge q i)) 0
        (c₁ ++ [.glColor3f ops.zero ops.one ops.zero]) = .ok c₂)
    (h₃ : forLoopM q (fun i => drawLine xy (chordEdge q p i)) 0
        (c₂ ++ [.glColor3f ops.one ops.zero ops.zero]) = .ok c₃) :
    drawAll ops p q xy = .ok (c₃ ++ [.glFlush]) := by
  unfold drawAll
  rw [h₁]
  simp only []
  rw [h₂]
  simp only []
  rw [h₃]

theorem display_of_fill {F : Type} (ops : FloatOps F) (a b p q : Int) (s : FillState F)
    (h : fillPoints ops a b q = .ok s) : display ops a b p q = drawAll ops p q s.xy := by
  unfold display
  rw [h]

theorem fillPoints_negative {F : Type} (ops : FloatOps F) (a b q : Int) (hq : q < 0)
    (hmin : -1073741824 ≤ q) : fillPoints ops a b q = .error .badArrayNewLength := by
  have hw : wrapInt (2 * q) = 2 * q :=
    wrapInt_of_range (by unfold INT_MIN; omega) (by unfold INT_MAX; omega)
  unfold fillPoints newFloatArray
  rw [hw, if_pos (by omega)]

theorem display_zero {F : Type} (ops : FloatOps F) (a b p : Int) :
    display ops a b p 0
      = .ok [.glClear, .glColor3f ops.zero ops.zero ops.one,
          .glColor3f ops.zero ops.one ops.zero, .glColor3f ops.one ops.zero ops.zero,
          .glFlush] := by
  rw [display_of_fill ops a b p 0 _ (fillPoints_eq ops a b 0 le_rfl (by decide)),
    drawAll_of_loops ops p 0 _ _ _ _ (forLoopM_done 0 _ 0 _ le_rfl)
      (forLoopM_done 0 _ 0 _ le_rfl) (forLoopM_done 0 _ 0 _ le_rfl)]
  rfl

/-- C5, as stated, fails: with point count 0 `display()` reports no failure;
it completes, having made only the calls that surround the (empty) loops. -/
theorem display_zero_counterexample :
    (∀ (F : Type) (ops : FloatOps F),
      display ops 1 1 37 0
        = .ok [.glClear, .glColor3f ops.zero ops.zero ops.one,
            .glColor3f ops.zero ops.one ops.zero, .glColor3f ops.one ops.zero ops.zero,
            .glFlush])
    ∧ ¬ (∀ (F : Type) (ops : FloatOps F) (a b p q : Int), q ≤ 0 →
          ∃ e : Fault, display ops a b p q = .error e) := by
  refine ⟨fun F ops => display_zero ops 1 1 37, ?_⟩
  intro h
  obtain ⟨e, he⟩ := h ℝ ⟨0, 1, 13176795 / 4194304, fun n => (n : ℝ), fun x y => x * y,
    fun x y => x / y, Real.cos, Real.sin⟩ 1 1 37 0 le_rfl
  rw [display_zero] at he
  exact absurd he (by simp)

/-- With no iteration to run, a call of `display()` either stops at the
allocation or returns after the calls that surround the loops, and the curve
read back is empty. -/
theorem nonpositive_outcome {F : Type} (ops : FloatOps F) (a b p q : Int) (hq : q ≤ 0) :
    (curvePoints ops a b q = .error .badArrayNewLength
      ∧ display ops a b p q = .error .badArrayNewLength)
    ∨ (curvePoints ops a b q = .ok []
      ∧ display ops a b p q
        = .ok [.glClear, .glColor3f ops.zero ops.zero ops.one,
            .glColor3f ops.zero ops.one ops.zero, .glColor3f ops.one ops.zero ops.zero,
            .glFlush]) := by
  have hf : fillPoints ops a b q = .error .badArrayNewLength
      ∨ ∃ xy : List (Option F), fillPoints ops a b q = .ok { k := 0, xy := xy, stores := [] } := by
    unfold fillPoints
    generalize wrapInt (2 * q) = n
    unfold newFloatArray
    by_cases hn : n < 0
    · rw [if_pos hn]
      exact Or.inl rfl
    · rw [if_neg hn]
      exact Or.inr ⟨_, forLoopM_done q _ 0 _ hq⟩
  rcases hf with hf | ⟨xy, hf⟩
  · left
    constructor
    · unfold curvePoints
      rw [hf]
    · unfold display
      rw [hf]
  · right
    constructor
    · unfold curvePoints
      rw [hf]
      exact forLoopM_done q _ 0 _ hq
    · rw [display_of_fill ops a b p q _ hf,
        drawAll_of_loops ops p q _ _ _ _ (forLoopM_done q _ 0 _ hq)
          (forLoopM_done q _ 0 _ hq) (forLoopM_done q _ 0 _ hq)]
      rfl

/-- C5 (amended): for a point count `q ≤ 0` no point and no edge is produced:
the edge loops yield nothing, a curve that is returned is empty, a run of
`display()` that completes has made only the calls around the empty loops,
and the only failure there can be is `bad_array_new_length` at the
allocation.  With `q = 0` the run completes normally.  With `-2^30 ≤ q < 0`
the allocation `new float[2 * q]` has a negative length and fails with
`bad_array_new_length` before any loop runs. -/
theorem display_nonpositive {F : Type} (ops : FloatOps F) (a b p q : Int) (hq : q ≤ 0) :
    (boundaryEdges q = [] ∧ chordEdges q p = [])
    ∧ ((∀ pts : List (F × F), curvePoints ops a b q = .ok pts → pts = [])
      ∧ (∀ calls : List (GLCall F), display ops a b p q = .ok calls →
          calls = [.glClear, .glColor3f ops.zero ops.zero ops.one,
            .glColor3f ops.zero ops.one ops.zero, .glColor3f ops.one ops.zero ops.zero,
            .glFlush])
      ∧ (∀ e : Fault, curvePoints ops a b q = .error e → e = .badArrayNewLength)
      ∧ (∀ e : Fault, display ops a b p q = .error e → e = .badArrayNewLength))
    ∧ (q = 0 →
        curvePoints ops a b q = .ok []
        ∧ display ops a b p q
          = .ok [.glClear, .glColor3f ops.zero ops.zero ops.one,
              .glColor3f ops.zero ops.one ops.zero, .glColor3f ops.one ops.zero ops.zero,
              .glFlush])
    ∧ (q < 0 → -1073741824 ≤ q →
        curvePoints ops a b q = .error .badArrayNewLength
        ∧ display ops a b p q = .error .badArrayNewLength) := by
  refine ⟨⟨forLoop_done q _ 0 hq, forLoop_done q _ 0 hq⟩, ?_, ?_, ?_⟩
  · rcases nonpositive_outcome ops a b p q hq with ⟨hc, hd⟩ | ⟨hc, hd⟩
    · refine ⟨?_, ?_, ?_, ?_⟩
      · intro pts h
        rw [hc] at h
        exact absurd h (by simp)
      · intro calls h
        rw [hd] at h
        exact absurd h (by simp)
      · intro e h
        rw [hc] at h
        simp only [Except.error.injEq] at h
        exact h.symm
      · intro e h
        rw [hd] at h
        simp only [Except.error.injEq] at h
        exact h.symm
    · refine ⟨?_, ?_, ?_, ?_⟩
      · intro pts h
        rw [hc] at h
        simp only [Except.ok.injEq] at h
        exact h.symm
      · intro calls h
        rw [hd] at h
        simp only [Except.ok.injEq] at h
        exact h.symm
      · intro e h
        rw [hc] at h
        exact absurd h (by simp)
      · intro e h
        rw [hd] at h
        exact absurd h (by simp)
  · intro h0
    subst h0
    exact ⟨curvePoints_eq ops a b 0 le_rfl (by decide), display_zero ops a b p⟩
  · intro hneg hmin
    have hf := fillPoints_negative ops a b q hneg hmin
    constructor
    · unfold curvePoints
      rw [hf]
    · unfold display
      rw [hf]

theorem display_nonpositive_witness :
    ∃ ops : FloatOps ℝ, (-1 : Int) ≤ 0
      ∧ (boundaryEdges (-1) = [] ∧ chordEdges (-1) 37 = [])
      ∧ (∀ pts : List (ℝ × ℝ), curvePoints ops 1 1 (-1) = .ok pts → pts = [])
      ∧ display ops 1 1 37 (-1) = .error .badArrayNewLength :=
  have h := display_nonpositive (F := ℝ)
    ⟨0, 1, 13176795 / 4194304, fun n => (n : ℝ), fun x y => x * y, fun x y => x / y,
      Real.cos, Real.sin⟩ 1 1 37 (-1) (by decide)
  ⟨_, by decide, h.1, h.2.1.1, (h.2.2.2 (by decide) (by decide)).2⟩

/-- C8: with stride 0 and a point count `1 ≤ q` there are exactly `q` chords
and the `i`-th is the self-loop `(i, i)`; with point count 1 the boundary
edges are the single self-loop `(0, 0)` and the curve is the single point of
angle `0.0f`, that is `(cos(a * 0.0f), sin(b * 0.0f))`. -/
theorem degenerate_cases {F : Type} (ops : FloatOps F) (laws : ExactLaws ops) (a b q : Int)
    (hq : 1 ≤ q) (hmax : q ≤ INT_MAX) :
    ((chordEdges q 0).length = q.toNat
      ∧ ∀ i : Nat, i < q.toNat → (chordEdges q 0)[i]? = some ((i : Int), (i : Int)))
    ∧ boundaryEdges 1 = [(0, 0)]
    ∧ curvePoints ops a b 1
        = .ok [(ops.cos (ops.mul (ops.ofInt a) ops.zero),
                ops.sin (ops.mul (ops.ofInt b) ops.zero))] := by
  refine ⟨?_, ?_, ?_⟩
  · rw [chordEdges_eq q 0 le_rfl (by omega)]
    refine ⟨by simp, ?_⟩
    intro i hi
    rw [List.getElem?_map, List.getElem?_range hi, Option.map_some', add_zero,
      Int.emod_eq_of_lt (by omega) (by omega)]
  · rw [boundaryEdges_eq 1 (by decide)]
    decide
  · rw [curvePoints_eq ops a b 1 (by decide) (by decide)]
    have h0 : specPoint ops a b 1 ((0 : Nat) : Int)
        = (ops.cos (ops.mul (ops.ofInt a) ops.zero),
           ops.sin (ops.mul (ops.ofInt b) ops.zero)) := by
      unfold specPoint
      rw [Nat.cast_zero, zero_mul, laws.ofInt_zero, laws.zero_mul_pi, laws.zero_div 1 le_rfl]
    show Except.ok [storedPoint ops a b 1 0] = _
    rw [storedPoint_eq_specPoint ops laws, h0]

theorem degenerate_cases_witness :
    ∃ ops : FloatOps ℝ, ExactLaws ops ∧ (1 : Int) ≤ 5 ∧ (5 : Int) ≤ INT_MAX
      ∧ (chordEdges 5 0)[3]? = some (3, 3)
      ∧ boundaryEdges 1 = [(0, 0)]
      ∧ curvePoints ops 2 3 1
          = .ok [(ops.cos (ops.mul (ops.ofInt 2) ops.zero),
                  ops.sin (ops.mul (ops.ofInt 3) ops.zero))] := by
  let ops : FloatOps ℝ :=
    ⟨0, 1, 13176795 / 4194304, fun n => (n : ℝ), fun x y => x * y, fun x y => x / y,
      Real.cos, Real.sin⟩
  have laws : ExactLaws ops :=
    ⟨by simp [ops], by simp [ops], by simp [ops], fun n _ => by simp [ops],
      fun x => by simp [ops], by simp [ops], by simp [ops]⟩
  have h := degenerate_cases ops laws 2 3 5 (by decide) (by decide)
  exact ⟨ops, laws, by decide, by decide, h.1.2 3 (by decide), h.2.1, h.2.2⟩

/-! ## Memory safety of `display()` -/

theorem load_of_readVertex {F : Type} (xy : List (Option F)) (off : Int) (v : F × F)
    (h : readVertex xy off = .ok v) :
    load xy off = .ok v.1 ∧ load xy (off + 1) = .ok v.2 := by
  unfold readVertex at h
  cases h₁ : load xy off with
  | error e => rw [h₁] at h; exact absurd h (by simp)
  | ok x =>
    rw [h₁] at h
    cases h₂ : load xy (off + 1) with
    | error e => rw [h₂] at h; exact absurd h (by simp)
    | ok y =>
      rw [h₂] at h
      simp only [Except.ok.injEq] at h
      subst h
      exact ⟨rfl, rfl⟩

/-- A loop whose body appends `g j` to the calls made so far makes the calls
`g i, g (i + 1), ..., g (q - 1)` in turn. -/
theorem forLoopM_append {α : Type} (q : Int) (body : Int → List α → Except Fault (List α))
    (g : Int → List α) :
    ∀ (n : Nat) (i : Int), (q - i).toNat = n →
      (∀ j, i ≤ j → j < q → ∀ s, body j s = .ok (s ++ g j)) →
      ∀ s, forLoopM q body i s = .ok (s ++ (forLoop q g i).flatten)
  | 0, i, h, _, s => by
      rw [forLoopM_done q body i s (by omega), forLoop_done q g i (by omega)]
      simp
  | n + 1, i, h, hb, s => by
      rw [forLoopM_step q body i s _ (by omega) (hb i le_rfl (by omega) s),
        forLoopM_append q body g n (i + 1) (by omega) (fun j hj hjq => hb j (by omega) hjq),
        forLoop_step q g i (by omega), List.flatten_cons, List.append_assoc]

theorem forLoop_map {α β : Type} (q : Int) (g : Int → α) (f : α → β) :
    forLoop q (fun i => f (g i)) 0 = (forLoop q g 0).map f := by
  rw [forLoop_eq_map, forLoop_eq_map, List.map_map]
  rfl

/-- The calls of a complete run: `glClear`, then in blue one point per index,
in green one segment per boundary edge, in red one segment per chord, each
between the stored points of the two indices of the edge, then `glFlush`. -/
theorem display_calls {F : Type} (ops : FloatOps F) (a b p q : Int)
    (hq : 1 ≤ q) (hmax : 2 * q ≤ INT_MAX) (hp : 0 ≤ p) (hov : q - 1 + p ≤ INT_MAX) :
    display ops a b p q
      = .ok ([.glClear, .glColor3f ops.zero ops.zero ops.one]
          ++ ((List.range q.toNat).map (storedPoint ops a b q)).flatMap pointCalls
          ++ [.glColor3f ops.zero ops.one ops.zero]
          ++ (boundaryEdges q).flatMap (fun e =>
                lineCalls (storedPoint ops a b q e.1.toNat) (storedPoint ops a b q e.2.toNat))
          ++ [.glColor3f ops.one ops.zero ops.zero]
          ++ (chordEdges q p).flatMap (fun e =>
                lineCalls (storedPoint ops a b q e.1.toNat) (storedPoint ops a b q e.2.toNat))
          ++ [.glFlush]) := by
  rw [display_of_fill ops a b p q _ (fillPoints_eq ops a b q (by omega) hmax)]
  have hq0 : 0 < q := by omega
  have h₁ := forLoopM_append q (drawPoint (fillState ops a b q q.toNat).xy)
    (fun j => pointCalls (storedPoint ops a b q j.toNat)) q.toNat 0 (by omega)
    (fun j hj0 hjq s =>
      drawPoint_of_read _ j s _ (readVertex_fillState ops a b q hmax j hj0 hjq))
    [.glClear, .glColor3f ops.zero ops.zero ops.one]
  have hline : ∀ e : Int × Int, 0 ≤ e.1 → e.1 < q → 0 ≤ e.2 → e.2 < q →
      ∀ s, drawLine (fillState ops a b q q.toNat).xy e s
        = .ok (s ++ lineCalls (storedPoint ops a b q e.1.toNat)
            (storedPoint ops a b q e.2.toNat)) :=
    fun e h1 h2 h3 h4 s => drawLine_of_read _ e s _ _
      (readVertex_fillState ops a b q hmax e.1 h1 h2)
      (readVertex_fillState ops a b q hmax e.2 h3 h4)
  have h₂ := fun s => forLoopM_append q
    (fun i => drawLine (fillState ops a b q q.toNat).xy (boundaryEdge q i))
    (fun j => lineCalls (storedPoint ops a b q (boundaryEdge q j).1.toNat)
      (storedPoint ops a b q (boundaryEdge q j).2.toNat)) q.toNat 0 (by omega)
    (fun j hj0 hjq s => by
      have hb := boundaryEdge_eq q j hj0 hjq (by omega)
      exact hline (boundaryEdge q j) (by rw [hb]; exact hj0) (by rw [hb]; exact hjq)
        (by rw [hb]; exact Int.emod_nonneg _ (by omega))
        (by rw [hb]; exact Int.emod_lt_of_pos _ hq0) s) s
  have h₃ := fun s => forLoopM_append q
    (fun i => drawLine (fillState ops a b q q.toNat).xy (chordEdge q p i))
    (fun j => lineCalls (storedPoint ops a b q (chordEdge q p j).1.toNat)
      (storedPoint ops a b q (chordEdge q p j).2.toNat)) q.toNat 0 (by omega)
    (fun j hj0 hjq s => by
      have hc := chordEdge_eq q p j hj0 (by omega) hp (by omega)
      exact hline (chordEdge q p j) (by rw [hc]; exact hj0) (by rw [hc]; exact hjq)
        (by rw [hc]; exact Int.emod_nonneg _ (by omega))
        (by rw [hc]; exact Int.emod_lt_of_pos _ hq0) s) s
  rw [drawAll_of_loops ops p q _ _ _ _ h₁ (h₂ _) (h₃ _)]
  have e₁ : (forLoop q (fun j => pointCalls (storedPoint ops a b q j.toNat)) 0).flatten
      = ((List.range q.toNat).map (storedPoint ops a b q)).flatMap pointCalls := by
    rw [forLoop_eq_map, List.flatMap_def, List.map_map]
    rfl
  have e₂ : (forLoop q (fun j => lineCalls (storedPoint ops a b q (boundaryEdge q j).1.toNat)
      (storedPoint ops a b q (boundaryEdge q j).2.toNat)) 0).flatten
      = (boundaryEdges q).flatMap (fun e =>
          lineCalls (storedPoint ops a b q e.1.toNat) (storedPoint ops a b q e.2.toNat)) := by
    rw [List.flatMap_def, boundaryEdges, ← forLoop_map]
  have e₃ : (forLoop q (fun j => lineCalls (storedPoint ops a b q (chordEdge q p j).1.toNat)
      (storedPoint ops a b q (chordEdge q p j).2.toNat)) 0).flatten
      = (chordEdges q p).flatMap (fun e =>
          lineCalls (storedPoint ops a b q e.1.toNat) (storedPoint ops a b q e.2.toNat)) := by
    rw [List.flatMap_def, chordEdges, ← forLoop_map]
  rw [e₁, e₂, e₃]

theorem display_ok {F : Type} (ops : FloatOps F) (a b p q : Int)
    (hq : 1 ≤ q) (hmax : 2 * q ≤ INT_MAX) (hp : 0 ≤ p) (hov : q - 1 + p ≤ INT_MAX) :
    ∃ calls : List (GLCall F), display ops a b p q = .ok calls :=
  ⟨_, display_calls ops a b p q hq hmax hp hov⟩

/-- What the fill loop stores and what the drawing loops read, when `2 * q` is
an `int`. -/
theorem fill_and_reads {F : Type} (ops : FloatOps F) (a b p q : Int)
    (hq : 1 ≤ q) (hmax : 2 * q ≤ INT_MAX) (hp : 0 ≤ p) (hov : q - 1 + p ≤ INT_MAX) :
    (∀ n : Nat, (n : Int) ≤ q →
        ∃ s : FillState F, fillLoop ops a b q n (List.replicate (2 * q).toNat none) = .ok s
          ∧ s.k = 2 * (n : Int) ∧ (s.xy.length : Int) = 2 * q
          ∧ s.stores = (List.range (2 * n)).map (fun (t : Nat) => (t : Int)))
    ∧ (∃ s : FillState F, fillPoints ops a b q = .ok s
        ∧ (s.xy.length : Int) = 2 * q
        ∧ s.stores = (List.range (2 * q).toNat).map (fun (t : Nat) => (t : Int))
        ∧ (∀ off : Int, 0 ≤ off → off < 2 * q → ∃ v : F, load s.xy off = .ok v)
        ∧ (∀ i j : Int, 0 ≤ i → i < q →
            j = i ∨ j = (boundaryEdge q i).2 ∨ j = (chordEdge q p i).2 →
            (0 ≤ wrapInt (j * 2) ∧ wrapInt (j * 2) + 1 < 2 * q)
            ∧ ∃ x y : F, load s.xy (wrapInt (j * 2)) = .ok x
                ∧ load s.xy (wrapInt (j * 2) + 1) = .ok y)) := by
  have hlen : ∀ n : Nat, (n : Int) ≤ q →
      ((fillState ops a b q n).xy.length : Int) = 2 * q := by
    intro n hn
    show (((pointCells (storedPoint ops a b q) n
      ++ List.replicate (2 * (q.toNat - n)) none).length : Nat) : Int) = 2 * q
    rw [List.length_append, pointCells_length, List.length_replicate]
    omega
  have h2q : (2 * q).toNat = 2 * q.toNat := by omega
  have hrd : ∀ j : Int, 0 ≤ j → j < q →
      (0 ≤ wrapInt (j * 2) ∧ wrapInt (j * 2) + 1 < 2 * q)
      ∧ ∃ x y : F, load (fillState ops a b q q.toNat).xy (wrapInt (j * 2)) = .ok x
          ∧ load (fillState ops a b q q.toNat).xy (wrapInt (j * 2) + 1) = .ok y := by
    intro j hj0 hjq
    have hr := readVertex_fillState ops a b q hmax j hj0 hjq
    have hl := load_of_readVertex _ _ _ hr
    have hw : wrapInt (j * 2) = j * 2 :=
      wrapInt_of_range (by unfold INT_MIN; omega) (by omega)
    exact ⟨by rw [hw]; omega, _, _, hl.1, hl.2⟩
  refine ⟨?_, ⟨fillState ops a b q q.toNat, fillPoints_eq ops a b q (by omega) hmax,
    hlen q.toNat (by omega), by rw [h2q]; rfl, ?_, ?_⟩⟩
  · intro n hn
    rw [h2q]
    exact ⟨fillState ops a b q n, fillLoop_eq ops a b q hmax n hn, rfl, hlen n hn, rfl⟩
  · intro off h0 hlt
    by_cases hev : off % 2 = 0
    · obtain ⟨_, x, _, hx, _⟩ := hrd (off / 2) (by omega) (by omega)
      rw [wrapInt_of_range (by unfold INT_MIN; omega) (by omega)] at hx
      rw [show off / 2 * 2 = off by omega] at hx
      exact ⟨x, hx⟩
    · obtain ⟨_, _, y, _, hy⟩ := hrd (off / 2) (by omega) (by omega)
      rw [wrapInt_of_range (by unfold INT_MIN; omega) (by omega)] at hy
      rw [show off / 2 * 2 + 1 = off by omega] at hy
      exact ⟨y, hy⟩
  · intro i j hi0 hiq hj
    have hb := boundaryEdge_eq q i hi0 hiq (by omega)
    have hc := chordEdge_eq q p i hi0 (by omega) hp (by omega)
    have hq0 : 0 < q := by omega
    rcases hj with rfl | rfl | rfl
    · exact hrd _ hi0 hiq
    · rw [hb]
      exact hrd _ (Int.emod_nonneg _ (by omega)) (Int.emod_lt_of_pos _ hq0)
    · rw [hc]
      exact hrd _ (Int.emod_nonneg _ (by omega)) (Int.emod_lt_of_pos _ hq0)

/-- C9: for an `int` point count `1 ≤ q` and a stride `0 ≤ p` with no `i + p`
overflowing, `display()` never stops on an access fault, and once the buffer
`xy = new float[2 * q]` exists it has `2 * q` cells and:
(1) at the head of every iteration `n ≤ q` of the fill loop `k = 2 * n`, the
buffer still has `2 * q` cells and the offsets stored to so far are
`0, ..., 2 * n - 1`, once each;
(2) when the loop ends the offsets stored to are `0, ..., 2 * q - 1`, once
each, and every offset in `[0, 2 * q)` loads a stored float;
(3) for every `i` in `[0, q)` and `j` either `i`, `(i + 1) % q` or
`(i + p) % q`, the offsets `2 * j` and `2 * j + 1` read by
`glVertex2fv(xy + j * 2)` lie in `[0, 2 * q)` and hold stored floats;
(4) `display()` runs to completion. -/
theorem display_memory_safe {F : Type} (ops : FloatOps F) (a b p q : Int)
    (hq : 1 ≤ q) (hqmax : q ≤ INT_MAX) (hp : 0 ≤ p) (hov : q - 1 + p ≤ INT_MAX) :
    (∀ e : Fault, display ops a b p q = .error e → e = .badArrayNewLength)
    ∧ ∀ xy : List (Option F), newFloatArray F (wrapInt (2 * q)) = .ok xy →
      (xy.length : Int) = 2 * q
      ∧ (∀ n : Nat, (n : Int) ≤ q →
          ∃ s : FillState F, fillLoop ops a b q n xy = .ok s
            ∧ s.k = 2 * (n : Int) ∧ (s.xy.length : Int) = 2 * q
            ∧ s.stores = (List.range (2 * n)).map (fun (t : Nat) => (t : Int)))
      ∧ (∃ s : FillState F, fillPoints ops a b q = .ok s
          ∧ (s.xy.length : Int) = 2 * q
          ∧ s.stores = (List.range (2 * q).toNat).map (fun (t : Nat) => (t : Int))
          ∧ (∀ off : Int, 0 ≤ off → off < 2 * q → ∃ v : F, load s.xy off = .ok v)
          ∧ (∀ i j : Int, 0 ≤ i → i < q →
              j = i ∨ j = (boundaryEdge q i).2 ∨ j = (chordEdge q p i).2 →
              (0 ≤ wrapInt (j * 2) ∧ wrapInt (j * 2) + 1 < 2 * q)
              ∧ ∃ x y : F, load s.xy (wrapInt (j * 2)) = .ok x
                  ∧ load s.xy (wrapInt (j * 2) + 1) = .ok y))
      ∧ ∃ calls : List (GLCall F), display ops a b p q = .ok calls := by
  by_cases hmax : 2 * q ≤ INT_MAX
  · obtain ⟨calls, hc⟩ := display_ok ops a b p q hq hmax hp hov
    have hfr := fill_and_reads ops a b p q hq hmax hp hov
    have h2q : (2 * q).toNat = 2 * q.toNat := by omega
    refine ⟨?_, ?_⟩
    · intro e he
      rw [hc] at he
      exact absurd he (by simp)
    · intro xy hxy
      obtain ⟨_, rfl⟩ := newFloatArray_ok q hq hqmax xy hxy
      rw [← h2q]
      exact ⟨by rw [List.length_replicate]; omega, hfr.1, hfr.2, calls, hc⟩
  · obtain ⟨hn, hf⟩ := fillPoints_overflow ops a b q (by omega) hqmax
    refine ⟨?_, ?_⟩
    · intro e he
      unfold display at he
      rw [hf] at he
      simp only [Except.error.injEq] at he
      exact he.symm
    · intro xy hxy
      rw [hn] at hxy
      exact absurd hxy (by simp)

theorem display_memory_safe_witness :
    ∃ ops : FloatOps ℝ,
      ((1 : Int) ≤ 200 ∧ (200 : Int) ≤ INT_MAX ∧ (0 : Int) ≤ 37
        ∧ (200 : Int) - 1 + 37 ≤ INT_MAX)
      ∧ newFloatArray ℝ (wrapInt (2 * 200)) = .ok (List.replicate 400 none)
      ∧ ∃ calls : List (GLCall ℝ), display ops 1 1 37 200 = .ok calls :=
  have h := display_memory_safe (F := ℝ)
    ⟨0, 1, 13176795 / 4194304, fun n => (n : ℝ), fun x y => x * y, fun x y => x / y,
      Real.cos, Real.sin⟩ 1 1 37 200 (by decide) (by decide) (by decide) (by decide)
  have ha : newFloatArray ℝ (wrapInt (2 * 200)) = .ok (List.replicate 400 none) := by
    rw [wrapInt_of_range (by decide) (by decide)]
    rfl
  ⟨_, by decide, ha, (h.2 _ ha).2.2.2⟩

/-! ## Rounding errors -/

theorem abs_sin_le_abs (t : ℝ) : |Real.sin t| ≤ |t| := by
  rcases le_total 0 t with h | h
  · rw [abs_of_nonneg h, abs_le]
    constructor
    · have := Real.neg_one_le_sin t
      rcases le_total t 1 with h1 | h1
      · have hs : 0 ≤ Real.sin t :=
          Real.sin_nonneg_of_nonneg_of_le_pi h (by linarith [Real.pi_gt_three])
        linarith
      · linarith
    · exact Real.sin_le h
  · have h' : 0 ≤ -t := by linarith
    have := Real.sin_le h'
    rw [Real.sin_neg] at this
    rw [abs_of_nonpos h, abs_le]
    constructor
    · linarith
    · rcases le_total (-1) t with h1 | h1
      · have hs : 0 ≤ Real.sin (-t) :=
          Real.sin_nonneg_of_nonneg_of_le_pi h' (by linarith [Real.pi_gt_three])
        rw [Real.sin_neg] at hs
        linarith
      · linarith [Real.sin_le_one t]

theorem abs_cos_sub_cos_le (x y : ℝ) : |Real.cos x - Real.cos y| ≤ |x - y| := by
  rw [Real.cos_sub_cos, abs_mul, abs_mul]
  have h1 := Real.abs_sin_le_one ((x + y) / 2)
  have h2 := abs_sin_le_abs ((x - y) / 2)
  have h3 : |(x - y) / 2| = |x - y| / 2 := by rw [abs_div]; simp
  have h4 : |(-2 : ℝ)| = 2 := by norm_num
  rw [h4]
  have h5 := abs_nonneg (Real.sin ((x + y) / 2))
  have h6 := abs_nonneg (Real.sin ((x - y) / 2))
  nlinarith

theorem abs_sin_sub_sin_le (x y : ℝ) : |Real.sin x - Real.sin y| ≤ |x - y| := by
  rw [Real.sin_sub_sin, abs_mul, abs_mul]
  have h1 := Real.abs_cos_le_one ((x + y) / 2)
  have h2 := abs_sin_le_abs ((x - y) / 2)
  have h3 : |(x - y) / 2| = |x - y| / 2 := by rw [abs_div]; simp
  have h4 : |(2 : ℝ)| = 2 := by norm_num
  rw [h4]
  have h5 := abs_nonneg (Real.cos ((x + y) / 2))
  have h6 := abs_nonneg (Real.sin ((x - y) / 2))
  nlinarith

/-- The argument `a * theta` of `cos` and `sin` for `q = 4`, `a = 1` and index
`i ≤ 3` is finite and within `2.2 * 10^-6` of `i * π / 2`. -/
theorem angle_val {F : Type} (ops : FloatOps F) (val : F → ℝ) (fin : F → Prop)
    (m : FloatModel ops val fin) (i : Int) (h0 : 0 ≤ i) (h3 : i ≤ 3) :
    fin (ops.mul (ops.ofInt 1) (ops.div (ops.mul (ops.ofInt (i * 2)) ops.pi) (ops.ofInt 4)))
    ∧ |val (ops.mul (ops.ofInt 1)
          (ops.div (ops.mul (ops.ofInt (i * 2)) ops.pi) (ops.ofInt 4)))
        - (i : ℝ) * Real.pi / 2| ≤ 22 / 10 ^ 7 := by
  have hi0 : (0 : ℝ) ≤ (i : ℝ) := by exact_mod_cast h0
  have hi3 : (i : ℝ) ≤ 3 := by exact_mod_cast h3
  obtain ⟨f2, v2⟩ := m.ofInt_val (i * 2) (by rw [abs_le]; constructor <;> omega)
  obtain ⟨f4, v4⟩ := m.ofInt_val 4 (by norm_num)
  obtain ⟨f1, v1⟩ := m.ofInt_val 1 (by norm_num)
  obtain ⟨fp, vp⟩ := m.pi_val
  push_cast at v2 v4 v1
  -- the product `(float)(i * 2) * pi`
  have hP : |val (ops.ofInt (i * 2)) * val ops.pi| ≤ 19 := by
    rw [v2, vp, abs_le]
    constructor <;> nlinarith
  obtain ⟨fm, em⟩ := m.mul_val _ _ f2 fp (hP.trans (by norm_num))
  have em' := em.trans (add_le_add_right
    (mul_le_mul_of_nonneg_left hP (by norm_num : (0 : ℝ) ≤ 1 / 16777216)) _)
  rw [v2, vp] at em'
  obtain ⟨em₁, em₂⟩ := abs_le.mp em'
  -- the quotient by `(float)q`
  have hQ : |val (ops.mul (ops.ofInt (i * 2)) ops.pi) / val (ops.ofInt 4)| ≤ 5 := by
    rw [v4, abs_le]
    constructor <;> nlinarith
  obtain ⟨fd, ed⟩ := m.div_val _ _ fm f4 (by rw [v4]; norm_num) (hQ.trans (by norm_num))
  have ed' := ed.trans (add_le_add_right
    (mul_le_mul_of_nonneg_left hQ (by norm_num : (0 : ℝ) ≤ 1 / 16777216)) _)
  rw [v4] at ed'
  obtain ⟨ed₁, ed₂⟩ := abs_le.mp ed'
  -- the product `a * theta` with `a = 1`
  have hA : |val (ops.ofInt 1)
      * val (ops.div (ops.mul (ops.ofInt (i * 2)) ops.pi) (ops.ofInt 4))| ≤ 5 := by
    rw [v1, abs_le]
    constructor <;> nlinarith
  obtain ⟨fa, ea⟩ := m.mul_val _ _ f1 fd (hA.trans (by norm_num))
  have ea' := ea.trans (add_le_add_right
    (mul_le_mul_of_nonneg_left hA (by norm_num : (0 : ℝ) ≤ 1 / 16777216)) _)
  rw [v1] at ea'
  obtain ⟨ea₁, ea₂⟩ := abs_le.mp ea'
  -- the literal `pi` against `π`
  have e₁ : 0 ≤ (i : ℝ) * (Real.pi - 3.141592) :=
    mul_nonneg hi0 (by linarith [Real.pi_gt_d6])
  have e₂ : 0 ≤ (i : ℝ) * (3.141593 - Real.pi) :=
    mul_nonneg hi0 (by linarith [Real.pi_lt_d6])
  refine ⟨fa, abs_le.mpr ⟨?_, ?_⟩⟩
  · norm_num at em₁ em₂ ed₁ ed₂ ea₁ ea₂ e₁ e₂ ⊢
    nlinarith
  · norm_num at em₁ em₂ ed₁ ed₂ ea₁ ea₂ e₁ e₂ ⊢
    nlinarith

/-- The two floats stored for index `i ≤ 3` with `q = 4`, `a = b = 1` are
within `4 * 10^-6` of `cos (i * π / 2)` and `sin (i * π / 2)`. -/
theorem storedPoint_val {F : Type} (ops : FloatOps F) (val : F → ℝ) (fin : F → Prop)
    (m : FloatModel ops val fin) (i : Nat) (h3 : i ≤ 3) :
    |val (storedPoint ops 1 1 4 i).1 - Real.cos ((i : ℝ) * Real.pi / 2)| ≤ 4 / 10 ^ 6
    ∧ |val (storedPoint ops 1 1 4 i).2 - Real.sin ((i : ℝ) * Real.pi / 2)| ≤ 4 / 10 ^ 6 := by
  obtain ⟨fa, ea⟩ := angle_val ops val fin m (i : Int) (by omega) (by omega)
  obtain ⟨f1, v1⟩ := m.one_val
  have hi0 : (0 : ℝ) ≤ (i : ℝ) := Nat.cast_nonneg i
  have hi3 : (i : ℝ) ≤ 3 := by exact_mod_cast h3
  rw [Int.cast_natCast] at ea
  obtain ⟨ea₁, ea₂⟩ := abs_le.mp ea
  have e₁ : 0 ≤ (i : ℝ) * (Real.pi - 3.141592) :=
    mul_nonneg hi0 (by linarith [Real.pi_gt_d6])
  have e₂ : 0 ≤ (3 - (i : ℝ)) * (3.141593 - Real.pi) :=
    mul_nonneg (by linarith) (by linarith [Real.pi_lt_d6])
  have hπ := Real.pi_lt_d6
  have harg : |val (ops.mul (ops.ofInt 1)
      (ops.div (ops.mul (ops.ofInt ((i : Int) * 2)) ops.pi) (ops.ofInt 4)))| ≤ 16 := by
    rw [abs_le]
    constructor
    · norm_num at ea₁ e₁ e₂ hπ ⊢
      nlinarith
    · norm_num at ea₂ e₁ e₂ hπ ⊢
      nlinarith
  constructor
  · obtain ⟨fc, ec⟩ := m.cos_val _ fa harg
    have hl := abs_cos_sub_cos_le
      (val (ops.mul (ops.ofInt 1)
        (ops.div (ops.mul (ops.ofInt ((i : Int) * 2)) ops.pi) (ops.ofInt 4))))
      ((i : ℝ) * Real.pi / 2)
    have hl' := hl.trans ea
    obtain ⟨ec₁, ec₂⟩ := abs_le.mp ec
    obtain ⟨hl₁, hl₂⟩ := abs_le.mp hl'
    have hc1 := Real.cos_le_one ((i : ℝ) * Real.pi / 2)
    have hc2 := Real.neg_one_le_cos ((i : ℝ) * Real.pi / 2)
    have hB : |val ops.one * val (ops.cos (ops.mul (ops.ofInt 1)
        (ops.div (ops.mul (ops.ofInt ((i : Int) * 2)) ops.pi) (ops.ofInt 4))))| ≤ 2 := by
      rw [v1, abs_le]
      constructor
      · norm_num at ec₁ hl₁ ⊢
        linarith
      · norm_num at ec₂ hl₂ ⊢
        linarith
    obtain ⟨_, ex⟩ := m.mul_val _ _ f1 fc (hB.trans (by norm_num))
    have ex' := ex.trans (add_le_add_right
      (mul_le_mul_of_nonneg_left hB (by norm_num : (0 : ℝ) ≤ 1 / 16777216)) _)
    rw [v1] at ex'
    obtain ⟨ex₁, ex₂⟩ := abs_le.mp ex'
    show |val (ops.mul ops.one (ops.cos (ops.mul (ops.ofInt 1)
        (ops.div (ops.mul (ops.ofInt ((i : Int) * 2)) ops.pi) (ops.ofInt 4))))) - _| ≤ _
    rw [abs_le]
    constructor
    · norm_num at ec₁ hl₁ ex₁ ⊢
      linarith
    · norm_num at ec₂ hl₂ ex₂ ⊢
      linarith
  · obtain ⟨fc, ec⟩ := m.sin_val _ fa harg
    have hl := abs_sin_sub_sin_le
      (val (ops.mul (ops.ofInt 1)
        (ops.div (ops.mul (ops.ofInt ((i : Int) * 2)) ops.pi) (ops.ofInt 4))))
      ((i : ℝ) * Real.pi / 2)
    have hl' := hl.trans ea
    obtain ⟨ec₁, ec₂⟩ := abs_le.mp ec
    obtain ⟨hl₁, hl₂⟩ := abs_le.mp hl'
    have hc1 := Real.sin_le_one ((i : ℝ) * Real.pi / 2)
    have hc2 := Real.neg_one_le_sin ((i : ℝ) * Real.pi / 2)
    have hB : |val ops.one * val (ops.sin (ops.mul (ops.ofInt 1)
        (ops.div (ops.mul (ops.ofInt ((i : Int) * 2)) ops.pi) (ops.ofInt 4))))| ≤ 2 := by
      rw [v1, abs_le]
      constructor
      · norm_num at ec₁ hl₁ ⊢
        linarith
      · norm_num at ec₂ hl₂ ⊢
        linarith
    obtain ⟨_, ex⟩ := m.mul_val _ _ f1 fc (hB.trans (by norm_num))
    have ex' := ex.trans (add_le_add_right
      (mul_le_mul_of_nonneg_left hB (by norm_num : (0 : ℝ) ≤ 1 / 16777216)) _)
    rw [v1] at ex'
    obtain ⟨ex₁, ex₂⟩ := abs_le.mp ex'
    show |val (ops.mul ops.one (ops.sin (ops.mul (ops.ofInt 1)
        (ops.div (ops.mul (ops.ofInt ((i : Int) * 2)) ops.pi) (ops.ofInt 4))))) - _| ≤ _
    rw [abs_le]
    constructor
    · norm_num at ec₁ hl₁ ex₁ ⊢
      linarith
    · norm_num at ec₂ hl₂ ex₂ ⊢
      linarith

/-- C7: for point count 4 and multipliers `a = b = 1`, in any `float`
arithmetic that satisfies the standard model (the program's `pi` literal,
rounding of every product and quotient, `cos` and `sin` accurate to `10^-6`),
`display()` generates exactly four points and they lie, in order, within
`10^-5` in each coordinate of `(1, 0)`, `(0, 1)`, `(-1, 0)`, `(0, -1)`. -/
theorem square_points_tolerance {F : Type} (ops : FloatOps F) (val : F → ℝ) (fin : F → Prop)
    (m : FloatModel ops val fin) :
    ∃ p₀ p₁ p₂ p₃ : F × F, curvePoints ops 1 1 4 = .ok [p₀, p₁, p₂, p₃]
      ∧ (|val p₀.1 - 1| ≤ 1 / 10 ^ 5 ∧ |val p₀.2 - 0| ≤ 1 / 10 ^ 5)
      ∧ (|val p₁.1 - 0| ≤ 1 / 10 ^ 5 ∧ |val p₁.2 - 1| ≤ 1 / 10 ^ 5)
      ∧ (|val p₂.1 - (-1)| ≤ 1 / 10 ^ 5 ∧ |val p₂.2 - 0| ≤ 1 / 10 ^ 5)
      ∧ (|val p₃.1 - 0| ≤ 1 / 10 ^ 5 ∧ |val p₃.2 - (-1)| ≤ 1 / 10 ^ 5) := by
  have c3 : Real.cos (3 * Real.pi / 2) = 0 := by
    rw [show 3 * Real.pi / 2 = Real.pi / 2 + Real.pi by ring, Real.cos_add_pi,
      Real.cos_pi_div_two, neg_zero]
  have s3 : Real.sin (3 * Real.pi / 2) = -1 := by
    rw [show 3 * Real.pi / 2 = Real.pi / 2 + Real.pi by ring, Real.sin_add_pi,
      Real.sin_pi_div_two]
  have h₀ := storedPoint_val ops val fin m 0 (by decide)
  have h₁ := storedPoint_val ops val fin m 1 (by decide)
  have h₂ := storedPoint_val ops val fin m 2 (by decide)
  have h₃ := storedPoint_val ops val fin m 3 (by decide)
  rw [Nat.cast_zero, zero_mul, zero_div, Real.cos_zero, Real.sin_zero] at h₀
  rw [Nat.cast_one, one_mul, Real.cos_pi_div_two, Real.sin_pi_div_two] at h₁
  rw [show ((2 : Nat) : ℝ) * Real.pi / 2 = Real.pi by push_cast; ring, Real.cos_pi,
    Real.sin_pi] at h₂
  rw [show ((3 : Nat) : ℝ) * Real.pi / 2 = 3 * Real.pi / 2 by push_cast; ring, c3, s3] at h₃
  have hle : (4 : ℝ) / 10 ^ 6 ≤ 1 / 10 ^ 5 := by norm_num
  exact ⟨storedPoint ops 1 1 4 0, storedPoint ops 1 1 4 1, storedPoint ops 1 1 4 2,
    storedPoint ops 1 1 4 3, curvePoints_eq ops 1 1 4 (by decide) (by decide),
    ⟨h₀.1.trans hle, h₀.2.trans hle⟩, ⟨h₁.1.trans hle, h₁.2.trans hle⟩,
    ⟨h₂.1.trans hle, h₂.2.trans hle⟩, ⟨h₃.1.trans hle, h₃.2.trans hle⟩⟩

theorem square_points_tolerance_witness :
    ∃ (ops : FloatOps ℝ) (val : ℝ → ℝ) (fin : ℝ → Prop),
      (ops.pi = 13176795 / 4194304 ∧ ops.cos = Real.cos ∧ ops.sin = Real.sin
        ∧ val = id ∧ FloatModel ops val fin)
      ∧ ∃ p₀ p₁ p₂ p₃ : ℝ × ℝ, curvePoints ops 1 1 4 = .ok [p₀, p₁, p₂, p₃]
        ∧ (|val p₀.1 - 1| ≤ 1 / 10 ^ 5 ∧ |val p₀.2 - 0| ≤ 1 / 10 ^ 5)
        ∧ (|val p₁.1 - 0| ≤ 1 / 10 ^ 5 ∧ |val p₁.2 - 1| ≤ 1 / 10 ^ 5)
        ∧ (|val p₂.1 - (-1)| ≤ 1 / 10 ^ 5 ∧ |val p₂.2 - 0| ≤ 1 / 10 ^ 5)
        ∧ (|val p₃.1 - 0| ≤ 1 / 10 ^ 5 ∧ |val p₃.2 - (-1)| ≤ 1 / 10 ^ 5) := by
  let ops : FloatOps ℝ :=
    ⟨0, 1, 13176795 / 4194304, fun n => (n : ℝ), fun x y => x * y, fun x y => x / y,
      Real.cos, Real.sin⟩
  have m : FloatModel ops id (fun _ => True) :=
    ⟨⟨trivial, rfl⟩, ⟨trivial, rfl⟩, fun n _ => ⟨trivial, rfl⟩,
      fun x y _ _ _ => ⟨trivial, by
        show |x * y - x * y| ≤ _
        rw [sub_self, abs_zero]
        positivity⟩,
      fun x y _ _ _ _ => ⟨trivial, by
        show |x / y - x / y| ≤ _
        rw [sub_self, abs_zero]
        positivity⟩,
      fun x _ _ => ⟨trivial, by
        show |Real.cos x - Real.cos x| ≤ _
        rw [sub_self, abs_zero]
        positivity⟩,
      fun x _ _ => ⟨trivial, by
        show |Real.sin x - Real.sin x| ≤ _
        rw [sub_self, abs_zero]
        positivity⟩⟩
  exact ⟨ops, id, fun _ => True, ⟨rfl, rfl, rfl, rfl, m⟩,
    square_points_tolerance ops id (fun _ => True) m⟩

end Caustic
